import Mathlib

/-!
Verification of the lotto-brain prediction engine: a shallow embedding of
the Brain (weight learning), the ensemble scorer, the strategy pool, the
selector, the correlation booster, the verification loop and the draw
store adapter, with theorems settling the specification claims.

Numbers are modelled as integers, JavaScript floating point arithmetic as
exact rationals, `toFixed(k)` as rounding to k decimal digits, and the
stable Array.prototype.sort as a stable insertion sort.
-/

namespace LottoBrain

/-- The two prediction streams of the system. -/
inductive StreamTag where
  | winning : StreamTag
  | machine : StreamTag
deriving DecidableEq, Repr

/-- A draw record: draw type, date (as a UTC day index), and the five
winning and five machine number fields, each possibly null. -/
structure Draw where
  drawTypeId : ℤ
  drawDateDay : ℤ
  winning : List (Option ℤ)
  machine : List (Option ℤ)
deriving DecidableEq, Repr

/-- The numbers 1..90, in the ascending order in which JavaScript
enumerates the integer keys of the score and frequency objects. -/
def nums90 : List ℤ := (List.range 90).map (fun i => Int.ofNat i + 1)

/-- extractNumbers from backtester.js: select the winning or machine
fields of a draw, drop nulls. -/
def extractNumbers (d : Draw) (t : StreamTag) : List ℤ :=
  match t with
  | .winning => d.winning.filterMap id
  | .machine => d.machine.filterMap id

/-- getNumbers from advanced-analyzer.js, identical to extractNumbers. -/
def getNumbers (d : Draw) (t : StreamTag) : List ℤ :=
  extractNumbers d t

/-- One step of the stable descending insertion sort: an element is
placed before the first element whose key is not greater, which is the
order produced by the stable Array.prototype.sort with a descending
comparator. -/
def insertDescBy {α β : Type} [LinearOrder β] (key : α → β) (x : α) :
    List α → List α
  | [] => [x]
  | y :: ys => if key x < key y then y :: insertDescBy key x ys else x :: y :: ys

/-- Stable sort by a key, descending. -/
def sortDescBy {α β : Type} [LinearOrder β] (key : α → β) : List α → List α
  | [] => []
  | x :: xs => insertDescBy key x (sortDescBy key xs)

/-- One step of the stable ascending insertion sort. -/
def insertAscBy {α β : Type} [LinearOrder β] (key : α → β) (x : α) :
    List α → List α
  | [] => [x]
  | y :: ys => if key y < key x then y :: insertAscBy key x ys else x :: y :: ys

/-- Stable sort by a key, ascending. -/
def sortAscBy {α β : Type} [LinearOrder β] (key : α → β) : List α → List α
  | [] => []
  | x :: xs => insertAscBy key x (sortAscBy key xs)

/-- Rounding to two decimal digits, the model of toFixed(2). -/
def rnd2 (x : ℚ) : ℚ := (round (x * 100) : ℤ) / 100

/-- Rounding to one decimal digit, the model of toFixed(1). -/
def rnd1 (x : ℚ) : ℚ := (round (x * 10) : ℤ) / 10

/-- Rounding to four decimal digits, the model of toFixed(4). -/
def rnd4 (x : ℚ) : ℚ := (round (x * 10000) : ℤ) / 10000

/-- Rounding to three decimal digits, the model of toFixed(3). -/
def rnd3 (x : ℚ) : ℚ := (round (x * 1000) : ℤ) / 1000

/-- Add a value to a score map at one key. -/
def addAt (f : ℤ → ℚ) (n : ℤ) (v : ℚ) : ℤ → ℚ :=
  fun m => if m = n then f m + v else f m

theorem insertDescBy_perm {α β : Type} [LinearOrder β] (key : α → β)
    (x : α) (l : List α) : List.Perm (insertDescBy key x l) (x :: l) := by
  induction l with
  | nil => simp [insertDescBy]
  | cons y ys ih =>
    simp only [insertDescBy]
    by_cases h : key x < key y
    · simp only [h, if_pos]
      exact (ih.cons y).trans (List.Perm.swap x y ys)
    · simp [h]

theorem sortDescBy_perm {α β : Type} [LinearOrder β] (key : α → β)
    (l : List α) : List.Perm (sortDescBy key l) l := by
  induction l with
  | nil => simp [sortDescBy]
  | cons x xs ih =>
    exact (insertDescBy_perm key x (sortDescBy key xs)).trans (ih.cons x)

theorem insertAscBy_perm {α β : Type} [LinearOrder β] (key : α → β)
    (x : α) (l : List α) : List.Perm (insertAscBy key x l) (x :: l) := by
  induction l with
  | nil => simp [insertAscBy]
  | cons y ys ih =>
    simp only [insertAscBy]
    by_cases h : key y < key x
    · simp only [h, if_pos]
      exact (ih.cons y).trans (List.Perm.swap x y ys)
    · simp [h]

theorem sortAscBy_perm {α β : Type} [LinearOrder β] (key : α → β)
    (l : List α) : List.Perm (sortAscBy key l) l := by
  induction l with
  | nil => simp [sortAscBy]
  | cons x xs ih =>
    exact (insertAscBy_perm key x (sortAscBy key xs)).trans (ih.cons x)

/-- Drop zero entries, the model of the JavaScript truthiness filter on
number lists. -/
def truthy (l : List ℤ) : List ℤ := l.filter (fun m => m != 0)

/-- Occurrences of a number across the extracted draws, counting only
truthy values, as built by the freq objects of backtester.js. -/
def freqCount (draws : List Draw) (t : StreamTag) (n : ℤ) : ℕ :=
  (draws.map (fun d => (truthy (extractNumbers d t)).count n)).sum

namespace AdvancedAnalyzer

/-- The cycle statistics of one number that are consumed downstream. -/
structure CycleStats where
  avgCycle : ℚ
  currentGap : ℕ
  dueScore : ℚ
  cycleCount : ℕ
deriving Repr

/-- Chronological (stable) sort by draw date, as analyzeCycles performs
before walking the draws. -/
def sortByDateAsc (draws : List Draw) : List Draw :=
  sortAscBy Draw.drawDateDay draws

/-- Indices of the date-sorted draws in which a number appears. -/
def appearanceIdxs (sorted : List Draw) (t : StreamTag) (n : ℤ) : List ℕ :=
  (sorted.enum.filter (fun p => decide (n ∈ truthy (getNumbers p.2 t)))).map Prod.fst

/-- Gaps between successive appearance indices. -/
def gapsOf : List ℕ → List ℕ
  | a :: b :: rest => (b - a) :: gapsOf (b :: rest)
  | _ => []

/-- analyzeCycles from advanced-analyzer.js, for one number: average
cycle, current gap, due score (capped at 200, rounded to one decimal)
and cycle count. -/
def analyzeCycles (draws : List Draw) (t : StreamTag) (n : ℤ) : CycleStats :=
  let sorted := sortByDateAsc draws
  let idxs := appearanceIdxs sorted t n
  let gaps := gapsOf idxs
  if gaps.isEmpty then
    { avgCycle := 0, currentGap := draws.length, dueScore := 200, cycleCount := 0 }
  else
    let avg : ℚ := ((gaps.map (fun g => (g : ℚ))).sum) / gaps.length
    let lastSeen := idxs.getLast?.getD 0
    let currentGap := sorted.length - lastSeen - 1
    let ds : ℚ := if 0 < avg then (currentGap / avg) * 100 else 0
    { avgCycle := rnd2 avg
      currentGap := currentGap
      dueScore := rnd1 (min ds 200)
      cycleCount := gaps.length }

/-- A draw's numbers filtered truthy and sorted ascending, as
analyzePositions and analyzeCorrelations prepare them. -/
def sortedNumbers (d : Draw) (t : StreamTag) : List ℤ :=
  sortAscBy id (truthy (getNumbers d t))

/-- How often a number lands at a given position (1..5) among the draws
with exactly five numbers. -/
def posCount (draws : List Draw) (t : StreamTag) (pos : ℕ) (n : ℤ) : ℕ :=
  (draws.filter (fun d =>
    let s := sortedNumbers d t
    decide (s.length = 5 ∧ s.getD (pos - 1) 0 = n))).length

/-- Top-10 numbers of a position, by count descending, from
analyzePositions. -/
def posTop10 (draws : List Draw) (t : StreamTag) (pos : ℕ) : List ℤ :=
  (sortDescBy (fun n => posCount draws t pos n)
    (nums90.filter (fun n => posCount draws t pos n != 0))).take 10

/-- Ordered pairs (i before j) of an ascending number list. -/
def pairsOf : List ℤ → List (ℤ × ℤ)
  | [] => []
  | x :: xs => xs.map (fun y => (x, y)) ++ pairsOf xs

/-- Increment an insertion-ordered association list at a key, appending
the key at the end on first sight, as a JavaScript object of string keys
enumerates. -/
def bumpPair (l : List ((ℤ × ℤ) × ℕ)) (k : ℤ × ℤ) : List ((ℤ × ℤ) × ℕ) :=
  if l.any (fun e => e.1 = k) then
    l.map (fun e => if e.1 = k then (e.1, e.2 + 1) else e)
  else l ++ [(k, 1)]

/-- Pair co-occurrence counts in first-occurrence order. -/
def pairCounts (draws : List Draw) (t : StreamTag) : List ((ℤ × ℤ) × ℕ) :=
  draws.foldl (fun acc d => (pairsOf (sortedNumbers d t)).foldl bumpPair acc) []

/-- analyzeCorrelations from advanced-analyzer.js: the top 20 pairs by
raw co-occurrence count (the triples are computed only for reporting and
are not modelled). -/
def analyzeCorrelations (draws : List Draw) (t : StreamTag) : List ((ℤ × ℤ) × ℕ) :=
  (sortDescBy (fun e => e.2) (pairCounts draws t)).take 20

end AdvancedAnalyzer

namespace Backtester

open AdvancedAnalyzer

/-- Hot numbers strategy: top count numbers by raw frequency, returned
ascending. -/
def strategyHot (draws : List Draw) (count : ℕ) (t : StreamTag) : List ℤ :=
  sortAscBy id ((sortDescBy (fun n => freqCount draws t n) nums90).take count)

/-- Due numbers strategy: numbers with at least 3 recorded cycles,
sorted by due score descending. -/
def strategyDue (draws : List Draw) (count : ℕ) (t : StreamTag) : List ℤ :=
  sortAscBy id ((sortDescBy (fun n => (analyzeCycles draws t n).dueScore)
    (nums90.filter (fun n => decide (3 ≤ (analyzeCycles draws t n).cycleCount)))).take count)

/-- Append the first candidate of a top list that is not yet selected. -/
def pickFromTop (top : List ℤ) (selected : List ℤ) : List ℤ :=
  match top.find? (fun c => decide (c ∉ selected)) with
  | some c => selected ++ [c]
  | none => selected

/-- Append numbers from a ranked list, skipping the already selected,
until the target length is reached. -/
def fillUpTo (count : ℕ) : List ℤ → List ℤ → List ℤ
  | [], sel => sel
  | n :: rest, sel =>
    if sel.length < count ∧ n ∉ sel then fillUpTo count rest (sel ++ [n])
    else fillUpTo count rest sel

/-- Position-based strategy: most frequent unused number per position,
padded with hot numbers up to five. -/
def strategyPosition (draws : List Draw) (t : StreamTag) : List ℤ :=
  let afterPos := (List.range 5).foldl
    (fun sel pos => pickFromTop (posTop10 draws t (pos + 1)) sel) []
  let filled :=
    if afterPos.length < 5 then
      fillUpTo 5 (sortDescBy (fun n => freqCount draws t n) nums90) afterPos
    else afterPos
  sortAscBy id filled

/-- Append a number if not already present, the model of Set.add. -/
def addUnique (l : List ℤ) (x : ℤ) : List ℤ := if x ∈ l then l else l ++ [x]

/-- Walk the top pairs, adding both members until the target size, with
the early exit after each single addition. -/
def collectFromPairs (count : ℕ) : List ((ℤ × ℤ) × ℕ) → List ℤ → List ℤ
  | [], sel => sel
  | e :: rest, sel =>
    let s1 := addUnique sel e.1.1
    if count ≤ s1.length then s1
    else
      let s2 := addUnique s1 e.1.2
      if count ≤ s2.length then s2 else collectFromPairs count rest s2

/-- Correlation-based strategy: collect members of the top pairs. -/
def strategyCorrelation (draws : List Draw) (count : ℕ) (t : StreamTag) : List ℤ :=
  sortAscBy id ((collectFromPairs count (analyzeCorrelations draws t) []).take count)

/-- The ascending members of a decade bucket of strategyBalanced, where
bucket 0 is 1..9, bucket i is 10i..10i+9, capped at 90. -/
def decadeMembers (i : ℕ) : List ℤ :=
  let start : ℤ := if i = 0 then 1 else 10 * i
  let stop : ℤ := if i = 0 then 9 else min (10 * i + 9) 90
  (List.range (stop - start).toNat.succ).map (fun j => start + j)

/-- Balanced strategy: the most frequent number of each decade, visiting
decades in the order 2,3,4,5,1,6,7,0,8. -/
def strategyBalanced (draws : List Draw) (count : ℕ) (t : StreamTag) : List ℤ :=
  let pick := fun (sel : List ℤ) (i : ℕ) =>
    if count ≤ sel.length then sel
    else
      match (sortDescBy (fun n => freqCount draws t n) (decadeMembers i)).head? with
      | some n => if n ∈ sel then sel else sel ++ [n]
      | none => sel
  sortAscBy id ([2, 3, 4, 5, 1, 6, 7, 0, 8].foldl pick [])

/-- Number frequency over raw extracted draws, truthy values only, as
the local calculateLift of backtester.js counts. -/
def rawFreq (raws : List (List ℤ)) (n : ℤ) : ℕ :=
  (raws.map (fun d => (truthy d).count n)).sum

/-- The normalized key of a pair, sorted ascending. -/
def pairKey (a b : ℤ) : ℤ × ℤ := (min a b, max a b)

/-- All i before j pairs of a raw draw with normalized keys. -/
def pairsOfRaw : List ℤ → List (ℤ × ℤ)
  | [] => []
  | x :: xs => xs.map (fun y => pairKey x y) ++ pairsOfRaw xs

/-- Pair frequencies of the raw draws, keys in first-occurrence order. -/
def pairFreqRaw (raws : List (List ℤ)) : List ((ℤ × ℤ) × ℕ) :=
  raws.foldl (fun acc d => (pairsOfRaw d).foldl AdvancedAnalyzer.bumpPair acc) []

/-- One lift record of the local calculateLift of backtester.js. -/
structure LiftEntry where
  a : ℤ
  b : ℤ
  lift : ℚ
deriving Repr, DecidableEq

/-- The local calculateLift of backtester.js: the lift of every observed
pair, zero when a marginal probability vanishes, with no thresholds. -/
def calculateLift (raws : List (List ℤ)) : List LiftEntry :=
  if raws.length = 0 then []
  else
    (pairFreqRaw raws).map (fun e =>
      let pA : ℚ := (rawFreq raws e.1.1 : ℚ) / raws.length
      let pB : ℚ := (rawFreq raws e.1.2 : ℚ) / raws.length
      let pAB : ℚ := (e.2 : ℚ) / raws.length
      { a := e.1.1, b := e.1.2
        lift := if 0 < pA * pB then pAB / (pA * pB) else 0 })

/-- Consecutive draw pairs, anchor draw before follower draw. -/
def consecutivePairs (raws : List (List ℤ)) : List (List ℤ × List ℤ) :=
  raws.zip raws.tail

/-- How often a follower appears in the draw after an anchor. -/
def followerCount (raws : List (List ℤ)) (anchor fol : ℤ) : ℕ :=
  ((consecutivePairs raws).map (fun p => p.1.count anchor * p.2.count fol)).sum

/-- Whether the follower table of backtester.js has an entry for an
anchor, which happens exactly when the anchor occurs in a non-final
draw. -/
def anchorPresent (raws : List (List ℤ)) (anchor : ℤ) : Bool :=
  (consecutivePairs raws).any (fun p => decide (anchor ∈ p.1))

/-- One follower record with its conditional probability. -/
structure FollowerEntry where
  number : ℤ
  probability : ℚ
deriving Repr, DecidableEq

/-- The top-10 followers of an anchor by probability descending, from
the local calculateFollowers of backtester.js. -/
def followersOf (raws : List (List ℤ)) (anchor : ℤ) : List FollowerEntry :=
  let total : ℚ := ((nums90.map (fun f => followerCount raws anchor f)).sum : ℕ)
  (sortDescBy (fun e => e.probability)
    ((nums90.filter (fun f => followerCount raws anchor f != 0)).map
      (fun f => ⟨f, (followerCount raws anchor f : ℚ) / total⟩))).take 10

/-- Statistical strategy: score numbers by the lift of pairs touching
the last draw and by follower probabilities from the last draw. -/
def strategyStatistical (draws : List Draw) (count : ℕ) (t : StreamTag) : List ℤ :=
  let raws := draws.map (fun d => extractNumbers d t)
  let base : ℤ → ℚ := fun _ => 0
  let scores :=
    if raws.length = 0 then base
    else
      let lastDraw := raws.getLast?.getD []
      let s1 := (calculateLift raws).foldl (fun sc l =>
        let sc1 := if lastDraw.contains l.a then addAt sc l.b ((l.lift - 1) * 2) else sc
        if lastDraw.contains l.b then addAt sc1 l.a ((l.lift - 1) * 2) else sc1) base
      lastDraw.foldl (fun sc anchor =>
        if anchorPresent raws anchor then
          (followersOf raws anchor).foldl
            (fun sc2 f => addAt sc2 f.number (f.probability * 5)) sc
        else sc) s1
  sortAscBy id ((sortDescBy (fun n => scores n) nums90).take count)

/-- The finale statistics of the local analyzeLastDigits of
backtester.js, which walks the draws in their given order. -/
structure FinaleStats where
  count : ℕ
  gap : ℚ
  dueScore : ℚ
  percentage : ℚ
deriving Repr

/-- Occurrences of a finale over the truthy extracted numbers. -/
def finCount (draws : List Draw) (t : StreamTag) (f : ℤ) : ℕ :=
  (draws.map (fun d =>
    ((truthy (extractNumbers d t)).filter (fun n => n % 10 == f)).length)).sum

/-- Last draw index at which a finale was seen, zero when never. -/
def finLastSeen (draws : List Draw) (t : StreamTag) (f : ℤ) : ℕ :=
  (((draws.enum.filter (fun p =>
    (truthy (extractNumbers p.2 t)).any (fun n => n % 10 == f))).map
      Prod.fst).getLast?).getD 0

/-- Total truthy numbers over all draws. -/
def totalNumbersOf (draws : List Draw) (t : StreamTag) : ℕ :=
  (draws.map (fun d => (truthy (extractNumbers d t)).length)).sum

/-- analyzeLastDigits from backtester.js for one finale. -/
def analyzeLastDigits (draws : List Draw) (t : StreamTag) (f : ℤ) : FinaleStats :=
  let cnt := finCount draws t f
  let gap : ℚ := (draws.length : ℚ) - finLastSeen draws t f
  let total := totalNumbersOf draws t
  { count := cnt
    gap := gap
    dueScore := gap / max 1 ((cnt : ℚ) / draws.length)
    percentage := if 0 < total then (cnt : ℚ) / total * 100 else 0 }

/-- Finales strategy: take the three best finales by the weighted
combination of due score and percentage, collect every number with a
matching last digit, rank by frequency. -/
def strategyFinales (draws : List Draw) (count : ℕ) (t : StreamTag) : List ℤ :=
  let fs := fun f => analyzeLastDigits draws t f
  let pri := (sortDescBy
    (fun f => (fs f).dueScore * (6 / 10 : ℚ) + (fs f).percentage * (4 / 10 : ℚ))
    ([0, 1, 2, 3, 4, 5, 6, 7, 8, 9] : List ℤ)).take 3
  let candidates := nums90.filter (fun n => decide (n % 10 ∈ pri))
  let freqC := fun n => (draws.map (fun d =>
    ((extractNumbers d t).filter (fun m => decide (m ∈ candidates))).count n)).sum
  sortAscBy id ((sortDescBy freqC candidates).take count)

end Backtester

namespace StatisticalAnalyzer

/-- One record kept by calculateLift of statistical-analyzer.js. -/
structure SALiftEntry where
  a : ℤ
  b : ℤ
  lift : ℚ
  count : ℕ
deriving Repr, DecidableEq

/-- Number frequency over raw draws, with no truthiness guard, as
calculateLift of statistical-analyzer.js counts. -/
def freqSA (draws : List (List ℤ)) (n : ℤ) : ℕ :=
  (draws.map (fun d => d.count n)).sum

/-- calculateLift from statistical-analyzer.js: empty below ten draws,
otherwise the pairs passing the count and lift thresholds, the stored
lift rounded to three decimals while the threshold tests the exact
value. -/
def calculateLift (draws : List (List ℤ)) : List SALiftEntry :=
  if draws.length < 10 then []
  else
    let pf := draws.foldl (fun acc d =>
      (AdvancedAnalyzer.pairsOf (sortAscBy id d)).foldl
        AdvancedAnalyzer.bumpPair acc) []
    pf.filterMap (fun e =>
      let lift : ℚ := ((e.2 * draws.length : ℕ) : ℚ) /
        (((freqSA draws e.1.1) * (freqSA draws e.1.2) : ℕ) : ℚ)
      if 3 ≤ e.2 ∧ (6 / 5 : ℚ) < lift then
        some ⟨e.1.1, e.1.2, rnd3 lift, e.2⟩
      else none)

end StatisticalAnalyzer

namespace Brain

open Backtester AdvancedAnalyzer

/-- The fixed-key weight record of a brain, in the key order of
defaultBrain. -/
structure Weights where
  hot : ℚ
  due : ℚ
  correlation : ℚ
  position : ℚ
  balanced : ℚ
  statistical : ℚ
  finales : ℚ
  lstm : ℚ
deriving Repr, DecidableEq

/-- The default weights of defaultBrain. -/
def defaultWeights : Weights :=
  ⟨15/100, 15/100, 15/100, 10/100, 10/100, 20/100, 10/100, 15/100⟩

/-- Sum of the eight weights. -/
def sumW (w : Weights) : ℚ :=
  w.hot + w.due + w.correlation + w.position + w.balanced +
    w.statistical + w.finales + w.lstm

/-- Score and vote accumulators of calculateNumberScores. -/
structure ScoreState where
  scores : ℤ → ℚ
  votes : ℤ → ℕ

/-- addVote of calculateNumberScores. -/
def bumpVote (f : ℤ → ℕ) (n : ℤ) : ℤ → ℕ :=
  fun m => if m = n then f m + 1 else f m

/-- Contribute to the score of each listed number, by index and number,
and record a vote for the first five entries. -/
def applyContrib (l : List ℤ) (amount : ℕ → ℤ → ℚ) (st : ScoreState) : ScoreState :=
  l.enum.foldl (fun p q =>
    ⟨addAt p.scores q.2 (amount q.1 q.2),
      if q.1 < 5 then bumpVote p.votes q.2 else p.votes⟩) st

/-- The due candidates of the scorer: cycle count at least five, due
score descending, top fifteen. -/
def dueCandidates (draws : List Draw) (t : StreamTag) : List ℤ :=
  (sortDescBy (fun n => (analyzeCycles draws t n).dueScore)
    (nums90.filter (fun n => decide (5 ≤ (analyzeCycles draws t n).cycleCount)))).take 15

/-- The top-15 positive-score numbers, the focus list of the tactical
neighbor redistribution. -/
def topCandidates (scores : ℤ → ℚ) : List ℤ :=
  (sortDescBy (fun n => scores n)
    (nums90.filter (fun n => decide (0 < scores n)))).take 15

/-- Tactical neighbor redistribution: walk the top candidates in score
order, adding fifteen percent of the current score of each to its
in-range neighbors. -/
def applyNeighborRedistribution (scores : ℤ → ℚ) : ℤ → ℚ :=
  (topCandidates scores).foldl (fun sc num =>
    let bonus := sc num * (3 / 20)
    let sc1 := if 1 < num then addAt sc (num - 1) bonus else sc
    if num < 90 then addAt sc1 (num + 1) bonus else sc1) scores

/-- Synergy amplifier: consensus boost by votes, lone-wolf penalty for
high scores with no votes, applied to the keys 1..90. -/
def applySynergy (votes : ℤ → ℕ) (scores : ℤ → ℚ) : ℤ → ℚ :=
  fun n =>
    if 1 ≤ n ∧ n ≤ 90 then
      let s1 :=
        if 5 ≤ votes n then scores n * (12 / 10)
        else if 3 ≤ votes n then scores n * (11 / 10)
        else scores n
      if votes n = 0 ∧ 2 < s1 then s1 * (85 / 100) else s1
    else scores n

/-- calculateNumberScores from the brain module: the eight weighted
strategy contributions, then neighbor redistribution, then the synergy
amplifier. -/
def calculateNumberScores (draws : List Draw) (w : Weights) (t : StreamTag)
    (lstm : List ℤ) : ℤ → ℚ :=
  let st0 : ScoreState := ⟨fun _ => 0, fun _ => 0⟩
  let st1 := applyContrib (dueCandidates draws t)
    (fun idx n => w.due * ((15 : ℚ) - idx) / 15 *
      (min (analyzeCycles draws t n).dueScore 150 / 150)) st0
  let st2 := applyContrib (strategyHot draws 15 t)
    (fun idx _ => w.hot * ((15 : ℚ) - idx) / 15) st1
  let st3 := applyContrib (strategyPosition draws t)
    (fun _ _ => w.position * 2) st2
  let st4 := applyContrib (strategyCorrelation draws 15 t)
    (fun idx _ => (if w.correlation = 0 then 1 / 10 else w.correlation) *
      ((15 : ℚ) - idx) / 15) st3
  let st5 := applyContrib (strategyBalanced draws 15 t)
    (fun idx _ => w.balanced *
      (if 5 ≤ idx then 1 + 2 * ((15 : ℚ) - idx) / 10 else 3)) st4
  let st6 := applyContrib (strategyStatistical draws 15 t)
    (fun idx _ => (if w.statistical = 0 then 1 / 10 else w.statistical) *
      ((15 : ℚ) - idx) / 15) st5
  let st7 := applyContrib (strategyFinales draws 15 t)
    (fun idx _ => (if w.finales = 0 then 1 / 10 else w.finales) *
      ((15 : ℚ) - idx) / 15) st6
  let st8 :=
    if lstm.isEmpty then st7
    else applyContrib lstm
      (fun idx _ => (if w.lstm = 0 then 15 / 100 else w.lstm) *
        ((15 : ℚ) - idx) / 15) st7
  applySynergy st8.votes (applyNeighborRedistribution st8.scores)

/-- The leakage guard of learn: keep only draws whose extracted number
set is not contained in the actual draw. -/
def trainingDataOf (actualDraw : List ℤ) (allDraws : List Draw) (t : StreamTag) :
    List Draw :=
  allDraws.filter (fun d =>
    !((extractNumbers d t).all (fun n => decide (n ∈ actualDraw))))

/-- Individual strategy score of learn: one point per exact match, a
quarter point per near miss. -/
def stratScoreOf (preds actual : List ℤ) : ℚ :=
  (preds.map (fun n =>
    if n ∈ actual then (1 : ℚ)
    else if actual.any (fun a => (a - n).natAbs == 1) then 1 / 4
    else 0)).sum

/-- The weight clamp of learn. -/
def clampW (x : ℚ) : ℚ := max (1 / 20) (min (3 / 5) x)

/-- One reinforcement update of learn, clamped. -/
def updateW (x score : ℚ) : ℚ :=
  clampW (if 3 ≤ score then x + 1 / 10
    else if 1 ≤ score then x + 1 / 20
    else x - 1 / 40)

/-- The final normalization of learn: divide by the sum, round each
weight to two decimals. -/
def normalizeW (w : Weights) : Weights :=
  let s := sumW w
  ⟨rnd2 (w.hot / s), rnd2 (w.due / s), rnd2 (w.correlation / s),
    rnd2 (w.position / s), rnd2 (w.balanced / s), rnd2 (w.statistical / s),
    rnd2 (w.finales / s), rnd2 (w.lstm / s)⟩

/-- The weight-update path of learn from the brain module: filter the
training data through the leakage guard, score the seven tuned
strategies on it, adjust and clamp each tuned weight, leave lstm
untouched, then normalize with rounding. The returned value models the
weights that learn stores and returns; the statistics and history
bookkeeping touch no weight. -/
def learn (brainWeights : Weights) (actualDraw : List ℤ) (allDraws : List Draw)
    (t : StreamTag) : Weights :=
  let td := trainingDataOf actualDraw allDraws t
  normalizeW
    { hot := updateW brainWeights.hot (stratScoreOf (strategyHot td 10 t) actualDraw)
      due := updateW brainWeights.due (stratScoreOf (strategyDue td 10 t) actualDraw)
      correlation := updateW brainWeights.correlation
        (stratScoreOf (strategyCorrelation td 10 t) actualDraw)
      position := updateW brainWeights.position
        (stratScoreOf (strategyPosition td t) actualDraw)
      balanced := updateW brainWeights.balanced
        (stratScoreOf (strategyBalanced td 10 t) actualDraw)
      statistical := updateW brainWeights.statistical
        (stratScoreOf (strategyStatistical td 10 t) actualDraw)
      finales := updateW brainWeights.finales
        (stratScoreOf (strategyFinales td 10 t) actualDraw)
      lstm := brainWeights.lstm }

end Brain

/-- Multiply a score map at one key. -/
def mulAt (f : ℤ → ℚ) (n : ℤ) (v : ℚ) : ℤ → ℚ :=
  fun m => if m = n then f m * v else f m

/-- Decade of a number, as both selector implementations compute it. -/
def decadeOf (n : ℤ) : ℤ := (n - 1).fdiv 10

/-- Ranked candidates of a selector: the 1..90 keys of a score map,
score rounded to four decimals, sorted by score descending. -/
def rankScores (scores : ℤ → ℚ) : List (ℤ × ℚ) :=
  sortDescBy (fun c => c.2) (nums90.map (fun n => (n, rnd4 (scores n))))

/-- Selected numbers of a selection that fall in a decade. -/
def decCount (sel : List (ℤ × ℚ)) (dec : ℤ) : ℕ :=
  (sel.filter (fun c => decadeOf c.1 == dec)).length

/-- First selector pass: accept a candidate while its decade holds
fewer than two accepted numbers, stop at the target count. -/
def fillPass (count : ℕ) : List (ℤ × ℚ) → List (ℤ × ℚ) → List (ℤ × ℚ)
  | [], acc => acc
  | c :: cs, acc =>
    if count ≤ acc.length then acc
    else if decCount acc (decadeOf c.1) < 2 then fillPass count cs (acc ++ [c])
    else fillPass count cs acc

/-- Second selector pass: fill the remaining slots in rank order
regardless of decade, skipping numbers already selected. -/
def secondPass (count : ℕ) : List (ℤ × ℚ) → List (ℤ × ℚ) → List (ℤ × ℚ)
  | [], acc => acc
  | c :: cs, acc =>
    if count ≤ acc.length then acc
    else if acc.any (fun s => s.1 == c.1) then secondPass count cs acc
    else secondPass count cs (acc ++ [c])

namespace CorrelationAnalyzer

/-- Whether a draw carries five machine and five winning numbers. -/
def completeDraw (d : Draw) : Bool :=
  (d.machine.filterMap id).length == 5 && (d.winning.filterMap id).length == 5

/-- analyzeWinningMachineCorrelation: the machine-to-winning
co-occurrence counts over the complete draws. -/
def analyzeWinningMachineCorrelation (draws : List Draw) : ℤ → ℤ → ℕ :=
  fun m w => (draws.map (fun d =>
    if completeDraw d then
      (d.machine.filterMap id).count m * (d.winning.filterMap id).count w
    else 0)).sum

/-- getTopCorrelatedWinning: the winning numbers correlated with a
machine number, count descending, top topN. -/
def getTopCorrelatedWinning (corr : ℤ → ℤ → ℕ) (machineNum : ℤ) (topN : ℕ) :
    List (ℤ × ℕ) :=
  (sortDescBy (fun e => e.2)
    ((nums90.filter (fun wn => corr machineNum wn != 0)).map
      (fun wn => (wn, corr machineNum wn)))).take topN

/-- calculateCorrelationStrength: the averaged top counts of the
predicted machine numbers over their theoretical maximum. -/
def calculateCorrelationStrength (corr : ℤ → ℤ → ℕ) (machinePrediction : List ℤ) : ℚ :=
  if machinePrediction.isEmpty then 0
  else
    let maxOf := fun (m : ℤ) =>
      ((nums90.filter (fun wn => corr m wn != 0)).map (fun wn => corr m wn)).foldl
        max 0
    let total : ℚ := ((machinePrediction.map maxOf).sum : ℕ)
    let maxPossible : ℚ := ((machinePrediction.map (fun m => maxOf m * 2)).sum : ℕ)
    if 0 < maxPossible then total / maxPossible else 0

/-- The result record of generateHybridPrediction. -/
structure HybridResult where
  boostedScores : ℤ → ℚ
  correlationStrength : ℚ
  boostedNumbers : List ℤ

/-- generateHybridPrediction: for each predicted machine number in
order, multiply the score of each of its top-10 correlated winning
numbers that is still truthy in the score map by the boost factor, and
record the boosted number once. -/
def generateHybridPrediction (draws : List Draw) (mainScores : ℤ → ℚ)
    (machinePrediction : List ℤ) (boostFactor : ℚ) : HybridResult :=
  let corr := analyzeWinningMachineCorrelation draws
  let step := fun (acc : (ℤ → ℚ) × List ℤ) (machineNum : ℤ) =>
    (getTopCorrelatedWinning corr machineNum 10).foldl (fun a e =>
      if a.1 e.1 ≠ 0 then
        (mulAt a.1 e.1 boostFactor, Backtester.addUnique a.2 e.1)
      else a) acc
  let r := machinePrediction.foldl step (mainScores, [])
  { boostedScores := r.1
    correlationStrength := calculateCorrelationStrength corr machinePrediction
    boostedNumbers := r.2 }

/-- selectTopNumbers from the correlation analyzer: the two-pass
decade-balanced greedy selection. -/
def selectTopNumbers (scores : ℤ → ℚ) (count : ℕ) : List (ℤ × ℚ) :=
  let ranked := rankScores scores
  secondPass count ranked (fillPass count ranked [])

end CorrelationAnalyzer

namespace Server

/-- The inline main and machine selection of generatePredictions, the
same two-pass greedy as selectTopNumbers with count five, returning the
numbers sorted ascending. -/
def serverSelectNumbers (scores : ℤ → ℚ) : List ℤ :=
  let ranked := rankScores scores
  sortAscBy id ((secondPass 5 ranked (fillPass 5 ranked [])).map Prod.fst)

/-- The validity test of handleEvaluationRequest: the numbers field
must be an array of exactly five entries; a missing or non-array field
is modelled as none. -/
def validEvalNumbers (numbers : Option (List ℤ)) : Bool :=
  match numbers with
  | none => false
  | some l => l.length == 5

/-- The HTTP status of handleEvaluationRequest for a parsed body: the
validation failure is thrown and caught by the generic handler, which
answers 500; any other body proceeds to a 200 answer. -/
def handleEvaluationStatus (numbers : Option (List ℤ)) : ℕ :=
  if validEvalNumbers numbers then 200 else 500

/-- getDrawsData with its environment made explicit: the current cache,
the outcome of the global cache refresh, and the outcome of the direct
fallback fetch. A cache miss refreshes from the global fetch; a served
filter result must be nonempty; otherwise the direct fetch answers, and
its failure is thrown to the caller. -/
def getDrawsData (cache : Option (List Draw))
    (globalFetch directFetch : Except Unit (List Draw))
    (drawTypeId : Option ℤ) : Except Unit (List Draw) :=
  let cache1 := match cache with
    | some ds => some ds
    | none =>
      match globalFetch with
      | .ok data => some data.reverse
      | .error _ => none
  let direct : Except Unit (List Draw) :=
    match directFetch with
    | .error _ => .error ()
    | .ok data => .ok data
  match cache1 with
  | some ds =>
    let result := match drawTypeId with
      | some tid => ds.filter (fun d => d.drawTypeId == tid)
      | none => ds
    if 0 < result.length then .ok result else direct
  | none => direct

/-- A logged prediction entry as the verification loop consumes it. -/
structure PredEntry where
  ts : ℤ
  drawTypeId : ℤ
  predictedNumbers : List ℤ
deriving Repr, DecidableEq

/-- Milliseconds per day. -/
def msPerDay : ℤ := 86400000

/-- Milliseconds per hour. -/
def msPerHour : ℤ := 3600000

/-- Timestamp of a draw date, midnight UTC. -/
def drawMs (d : Draw) : ℤ := d.drawDateDay * msPerDay

/-- The match test of the verification loop: same draw type, and draw
date at or after the prediction timestamp or on the same UTC calendar
day. -/
def matchCond (p : PredEntry) (d : Draw) : Bool :=
  d.drawTypeId == p.drawTypeId &&
    (decide (p.ts ≤ drawMs d) || d.drawDateDay == p.ts.fdiv msPerDay)

/-- The attribution window test: the draw timestamp minus the
prediction timestamp lies in the half-open interval from minus 24 hours
to plus 72 hours. -/
def windowOK (p : PredEntry) (d : Draw) : Bool :=
  decide (-24 * msPerHour ≤ drawMs d - p.ts) &&
    decide (drawMs d - p.ts < 72 * msPerHour)

/-- The result stored on a verified entry. -/
structure VerifResult where
  drawDate : ℤ
  actual : List (Option ℤ)
  matchCount : ℕ
  matchesList : List ℤ
  nearMisses : List ℤ
deriving Repr, DecidableEq

/-- The result record built from an attributed draw: exact matches
against the raw winning fields, near misses against them with the null
fields coerced to zero as the JavaScript subtraction does. -/
def mkResult (p : PredEntry) (d : Draw) : VerifResult :=
  let actual := d.winning
  let ms := p.predictedNumbers.filter (fun n => decide (some n ∈ actual))
  { drawDate := d.drawDateDay
    actual := actual
    matchCount := ms.length
    matchesList := ms
    nearMisses := p.predictedNumbers.filter (fun n =>
      !decide (some n ∈ actual) &&
        actual.any (fun a => ((a.getD 0) - n).natAbs == 1)) }

/-- The per-entry attribution of verifyPredictions: take the first
matching draw of the fetched list, which is ordered newest first, and
record a result exactly when the window test passes. -/
def verifyEntry (recentDraws : List Draw) (p : PredEntry) : Option VerifResult :=
  match recentDraws.find? (fun d => matchCond p d) with
  | none => none
  | some d => if windowOK p d then some (mkResult p d) else none

/-- Modelled from the spec: the date of the earliest draw, in date
order, among the last-7-days draws whose drawTypeId matches and whose
date is at or after the prediction date; this is the draw the
specification says the verification loop attributes. -/
def specEarliestMatchingDate (recentDraws : List Draw) (p : PredEntry) : Option ℤ :=
  ((recentDraws.filter (fun d => matchCond p d)).map Draw.drawDateDay).min?

end Server

/-! Concrete inputs used to evaluate the embedded functions. -/

/-- A complete draw whose winning numbers include 17 and whose machine
numbers are 10, 20, 30, 40, 50. -/
def drawC2 : Draw :=
  ⟨1, 0, [some 13, some 17, some 42, some 56, some 88],
    [some 10, some 20, some 30, some 40, some 50]⟩

/-- A score map that is 1 at 17 and 0 elsewhere. -/
def scoresC2 : ℤ → ℚ := fun n => if n = 17 then 1 else 0

/-- A single draw with winning numbers 1..5 and no machine numbers. -/
def drawC6 : Draw :=
  ⟨1, 0, [some 1, some 2, some 3, some 4, some 5], [none, none, none, none, none]⟩

/-- A draw of type 1 on day 12. -/
def drawA : Draw :=
  ⟨1, 12, [some 5, some 6, some 7, some 8, some 9], [none, none, none, none, none]⟩

/-- A draw of type 1 on day 11. -/
def drawB : Draw :=
  ⟨1, 11, [some 1, some 2, some 3, some 4, some 5], [none, none, none, none, none]⟩

/-- A prediction entry logged at midnight of day 10 for draw type 1. -/
def predC3 : Server.PredEntry := ⟨10 * Server.msPerDay, 1, [5, 50]⟩

/-! Claim theorems. -/

/-- C10: in Learn, the leakage guard removes from the training set every
draw of the input whose extracted number set for the learned stream is a
subset of actualDraw, not only the draws exactly equal to it; in
particular a draw with an empty extracted set (for the machine stream, a
draw with no machine numbers) is always excluded. -/
theorem learn_leakage_guard_removes_subsets
    (a : List ℤ) (ds : List Draw) (t : StreamTag) (d : Draw) (hd : d ∈ ds) :
    (d ∈ Brain.trainingDataOf a ds t ↔ ¬ (∀ n ∈ extractNumbers d t, n ∈ a)) ∧
    (extractNumbers d t = [] → d ∉ Brain.trainingDataOf a ds t) := by
  constructor
  · simp [Brain.trainingDataOf, List.mem_filter, hd, List.all_eq_true]
  · intro he
    simp [Brain.trainingDataOf, List.mem_filter, he]

/-- Witness for C10: the machine-stream extraction of a draw without
machine numbers is empty, so the draw is dropped from the training
data. -/
theorem learn_leakage_guard_removes_subsets_witness :
    drawC6 ∉ Brain.trainingDataOf [1, 2, 3, 4, 5] [drawC6] StreamTag.machine :=
  (learn_leakage_guard_removes_subsets [1, 2, 3, 4, 5] [drawC6]
    StreamTag.machine drawC6 (by simp)).2 (by decide)

/-- C5: the ensemble scorer is a pure deterministic function; two runs
on equal draws, weights, stream and external scores produce equal score
maps. -/
theorem calculateNumberScores_deterministic
    (d1 d2 : List Draw) (w1 w2 : Brain.Weights) (t1 t2 : StreamTag)
    (e1 e2 : List ℤ) (hd : d1 = d2) (hw : w1 = w2) (ht : t1 = t2) (he : e1 = e2) :
    Brain.calculateNumberScores d1 w1 t1 e1 =
      Brain.calculateNumberScores d2 w2 t2 e2 := by
  subst hd hw ht he
  rfl

/-- Witness for C5 at a concrete input. -/
theorem calculateNumberScores_deterministic_witness :
    Brain.calculateNumberScores [drawC2] Brain.defaultWeights StreamTag.winning [] =
      Brain.calculateNumberScores [drawC2] Brain.defaultWeights StreamTag.winning [] :=
  calculateNumberScores_deterministic [drawC2] [drawC2] Brain.defaultWeights
    Brain.defaultWeights StreamTag.winning StreamTag.winning [] [] rfl rfl rfl rfl

/-- C7 counterexample: a request with three numbers is rejected with
status 500, not 400, and requests with five duplicate or out-of-range
numbers are not rejected at all. -/
theorem evaluate_status_counterexample :
    Server.handleEvaluationStatus (some [1, 2, 3]) = 500 ∧
    (500 : ℕ) ≠ 400 ∧
    Server.handleEvaluationStatus (some [1, 1, 1, 1, 1]) = 200 ∧
    Server.handleEvaluationStatus (some [0, 95, 200, -3, 7]) = 200 :=
  ⟨rfl, by decide, rfl, rfl⟩

/-- C7 amended: the evaluate operation rejects with HTTP status 500
(through the generic catch handler) exactly when the numbers field is
missing, not an array, or not of length five; bodies with five entries
are accepted with status 200 even when the numbers are duplicated or
out of the range 1..90. -/
theorem evaluate_status_amended (l : List ℤ) :
    (l.length ≠ 5 → Server.handleEvaluationStatus (some l) = 500) ∧
    (l.length = 5 → Server.handleEvaluationStatus (some l) = 200) ∧
    Server.handleEvaluationStatus none = 500 := by
  refine ⟨fun h => ?_, fun h => ?_, rfl⟩
  · simp [Server.handleEvaluationStatus, Server.validEvalNumbers, h]
  · simp [Server.handleEvaluationStatus, Server.validEvalNumbers, h]

/-- Witness for C7 amended: a five-entry body with duplicates passes
with status 200. -/
theorem evaluate_status_amended_witness :
    Server.handleEvaluationStatus (some [1, 1, 1, 1, 1]) = 200 :=
  (evaluate_status_amended [1, 1, 1, 1, 1]).2.1 (by decide)

/-- C8 counterexample: with an empty cache and both the refresh and the
direct fetch failing, getDrawsData propagates an error to its caller
instead of returning an empty sequence. -/
theorem getDrawsData_counterexample :
    Server.getDrawsData none (Except.error ()) (Except.error ()) none =
      Except.error () ∧
    (Except.error () : Except Unit (List Draw)) ≠ Except.ok [] :=
  ⟨rfl, fun h => Except.noConfusion h⟩

/-- C8 amended: when the cache is empty and the global refresh fails,
getDrawsData falls back to the direct fetch; if the direct fetch also
fails, the error is thrown to the caller rather than an empty sequence
being returned; a successful direct fetch or a nonempty cached filter
result is served without throwing. -/
theorem getDrawsData_amended :
    (∀ tid, Server.getDrawsData none (Except.error ()) (Except.error ()) tid =
      Except.error ()) ∧
    (∀ tid data, Server.getDrawsData none (Except.error ()) (Except.ok data) tid =
      Except.ok data) ∧
    (∀ ds g df (tid : ℤ),
      0 < (ds.filter (fun d => d.drawTypeId == tid)).length →
      Server.getDrawsData (some ds) g df (some tid) =
        Except.ok (ds.filter (fun d => d.drawTypeId == tid))) := by
  refine ⟨fun tid => ?_, fun tid data => ?_, fun ds g df tid h => ?_⟩
  · cases tid <;> rfl
  · cases tid <;> simp [Server.getDrawsData]
  · simp [Server.getDrawsData, h]

/-- Witness for C8 amended: a populated cache serves a nonempty filter
result without consulting the fetches. -/
theorem getDrawsData_amended_witness :
    Server.getDrawsData (some [drawA]) (Except.error ()) (Except.error ()) (some 1) =
      Except.ok ([drawA].filter (fun d => d.drawTypeId == 1)) :=
  getDrawsData_amended.2.2 [drawA] (Except.error ()) (Except.error ()) 1 (by decide)

theorem mem_nums90 (n : ℤ) : n ∈ nums90 ↔ 1 ≤ n ∧ n ≤ 90 := by
  constructor
  · intro h
    simp only [nums90, List.mem_map, List.mem_range] at h
    obtain ⟨i, hi, rfl⟩ := h
    rw [Int.ofNat_eq_natCast]
    omega
  · intro h
    simp only [nums90, List.mem_map, List.mem_range]
    refine ⟨(n - 1).toNat, by omega, ?_⟩
    show Int.ofNat ((n - 1).toNat) + 1 = n
    rw [Int.ofNat_eq_natCast]
    omega

theorem nums90_nodup : nums90.Nodup := by
  refine List.Nodup.map ?_ (List.nodup_range 90)
  intro a b hab
  have hab2 : Int.ofNat a + 1 = Int.ofNat b + 1 := hab
  rw [Int.ofNat_eq_natCast, Int.ofNat_eq_natCast] at hab2
  omega

theorem getTopCorrelatedWinning_fst_nodup (corr : ℤ → ℤ → ℕ) (m : ℤ) (k : ℕ) :
    ((CorrelationAnalyzer.getTopCorrelatedWinning corr m k).map Prod.fst).Nodup := by
  unfold CorrelationAnalyzer.getTopCorrelatedWinning
  rw [List.map_take]
  refine List.Nodup.sublist (List.take_sublist _ _) ?_
  have hperm := (sortDescBy_perm (fun e : ℤ × ℕ => e.2)
    ((nums90.filter (fun wn => corr m wn != 0)).map (fun wn => (wn, corr m wn)))).map
    Prod.fst
  rw [List.map_map] at hperm
  have hfc : (Prod.fst ∘ fun wn : ℤ => (wn, corr m wn)) = id := rfl
  rw [hfc, List.map_id] at hperm
  exact hperm.nodup_iff.mpr (nums90_nodup.filter _)

theorem boost_fold_scores (b : ℚ) (w : ℤ) (tops : List (ℤ × ℕ)) :
    ∀ acc : (ℤ → ℚ) × List ℤ, (tops.map Prod.fst).Nodup →
    ((tops.foldl (fun a e =>
      if a.1 e.1 ≠ 0 then (mulAt a.1 e.1 b, Backtester.addUnique a.2 e.1) else a)
        acc).1) w =
      acc.1 w * (if w ∈ tops.map Prod.fst then b else 1) := by
  induction tops with
  | nil => intro acc _; simp
  | cons e rest ih =>
    intro acc hnd
    rw [List.map_cons, List.nodup_cons] at hnd
    simp only [List.foldl_cons]
    by_cases hz : acc.1 e.1 = 0
    · rw [if_neg (by simpa using hz), ih acc hnd.2]
      by_cases hw : w = e.1
      · have hwn : w ∉ rest.map Prod.fst := hw ▸ hnd.1
        rw [if_neg hwn, if_pos (by simp [hw])]
        rw [hw, hz]
        ring
      · simp only [List.map_cons, List.mem_cons, hw, false_or]
    · rw [if_pos (by simpa using hz), ih _ hnd.2]
      by_cases hw : w = e.1
      · have hwn : w ∉ rest.map Prod.fst := hw ▸ hnd.1
        rw [if_neg hwn, if_pos (by simp [hw])]
        show mulAt acc.1 e.1 b w * 1 = acc.1 w * b
        rw [hw]
        simp [mulAt]
      · have h1 : mulAt acc.1 e.1 b w = acc.1 w := by
          simp [mulAt, hw]
        show mulAt acc.1 e.1 b w * _ = _
        rw [h1]
        simp only [List.map_cons, List.mem_cons, hw, false_or]

theorem boost_outer (draws : List Draw) (b : ℚ) (mp : List ℤ)
    (acc : (ℤ → ℚ) × List ℤ) (w : ℤ) :
    ((mp.foldl (fun acc2 machineNum =>
      (CorrelationAnalyzer.getTopCorrelatedWinning
        (CorrelationAnalyzer.analyzeWinningMachineCorrelation draws) machineNum 10).foldl
        (fun a e =>
          if a.1 e.1 ≠ 0 then (mulAt a.1 e.1 b, Backtester.addUnique a.2 e.1) else a)
        acc2) acc).1) w =
      acc.1 w * b ^ (mp.countP (fun m => decide (w ∈
        (CorrelationAnalyzer.getTopCorrelatedWinning
          (CorrelationAnalyzer.analyzeWinningMachineCorrelation draws) m 10).map
            Prod.fst))) := by
  induction mp generalizing acc with
  | nil => simp
  | cons m rest ih =>
    rw [List.foldl_cons, ih, List.countP_cons]
    rw [boost_fold_scores b w _ acc (getTopCorrelatedWinning_fst_nodup _ m 10)]
    by_cases hm : w ∈ (CorrelationAnalyzer.getTopCorrelatedWinning
      (CorrelationAnalyzer.analyzeWinningMachineCorrelation draws) m 10).map Prod.fst
    · simp [hm, pow_succ]
      ring
    · simp [hm]

/-- C2 amended: in the hybrid correlation booster, a winning number
with a truthy main score is multiplied by the boost factor once per
predicted machine number whose top-10 correlated winning numbers
contain it, so k times when k machine numbers recommend it, not exactly
once; the boostedNumbers report still lists it once. -/
theorem hybrid_boost_amended (draws : List Draw) (scores : ℤ → ℚ)
    (mp : List ℤ) (b : ℚ) (w : ℤ) :
    (CorrelationAnalyzer.generateHybridPrediction draws scores mp b).boostedScores w =
      scores w * b ^ (mp.countP (fun m => decide (w ∈
        (CorrelationAnalyzer.getTopCorrelatedWinning
          (CorrelationAnalyzer.analyzeWinningMachineCorrelation draws) m 10).map
            Prod.fst))) := by
  show ((mp.foldl _ (scores, [])).1) w = _
  exact boost_outer draws b mp (scores, []) w

/-- C2 counterexample: with one complete draw, every one of the five
predicted machine numbers lists 17 among its top-10 correlated winning
numbers, and the main score 1 of 17 is boosted five times to 1.3 to the
fifth power, not exactly once to 1.3. -/
theorem hybrid_boost_counterexample :
    (CorrelationAnalyzer.generateHybridPrediction [drawC2] scoresC2
      [10, 20, 30, 40, 50] (13/10)).boostedScores 17 = 371293/100000 ∧
    scoresC2 17 * (13/10) = 13/10 ∧
    (371293/100000 : ℚ) ≠ 13/10 := by
  refine ⟨by with_unfolding_all rfl, ?_, by norm_num⟩
  show (1 : ℚ) * (13/10) = 13/10
  norm_num

theorem addUnique_mem (l : List ℤ) (y x : ℤ) :
    x ∈ Backtester.addUnique l y → x ∈ l ∨ x = y := by
  unfold Backtester.addUnique
  by_cases h : y ∈ l
  · rw [if_pos h]
    exact Or.inl
  · rw [if_neg h]
    intro hx
    rcases List.mem_append.mp hx with h1 | h1
    · exact Or.inl h1
    · exact Or.inr (List.mem_singleton.mp h1)

theorem collectFromPairs_members (count : ℕ) (pairs : List ((ℤ × ℤ) × ℕ)) :
    ∀ (sel : List ℤ) (x : ℤ),
    x ∈ Backtester.collectFromPairs count pairs sel →
    x ∈ sel ∨ ∃ pr ∈ pairs, x = pr.1.1 ∨ x = pr.1.2 := by
  induction pairs with
  | nil =>
    intro sel x hx
    exact Or.inl (by simpa [Backtester.collectFromPairs] using hx)
  | cons e rest ih =>
    intro sel x hx
    unfold Backtester.collectFromPairs at hx
    by_cases h1 : count ≤ (Backtester.addUnique sel e.1.1).length
    · rw [if_pos h1] at hx
      rcases addUnique_mem _ _ _ hx with h | h
      · exact Or.inl h
      · exact Or.inr ⟨e, by simp, Or.inl h⟩
    · rw [if_neg h1] at hx
      by_cases h2 : count ≤ (Backtester.addUnique (Backtester.addUnique sel e.1.1) e.1.2).length
      · rw [if_pos h2] at hx
        rcases addUnique_mem _ _ _ hx with h | h
        · rcases addUnique_mem _ _ _ h with h3 | h3
          · exact Or.inl h3
          · exact Or.inr ⟨e, by simp, Or.inl h3⟩
        · exact Or.inr ⟨e, by simp, Or.inr h⟩
      · rw [if_neg h2] at hx
        rcases ih _ x hx with h | ⟨pr, hpr, hc⟩
        · rcases addUnique_mem _ _ _ h with h3 | h3
          · rcases addUnique_mem _ _ _ h3 with h4 | h4
            · exact Or.inl h4
            · exact Or.inr ⟨e, by simp, Or.inl h4⟩
          · exact Or.inr ⟨e, by simp, Or.inr h3⟩
        · exact Or.inr ⟨pr, by simp [hpr], hc⟩

/-- C6 amended: calculateLift of the statistical analyzer keeps only
pairs with co-occurrence count at least 3 and exact lift above 1.2, but
the correlation strategy draws its candidate numbers from the top-20
pairs by raw co-occurrence count of analyzeCorrelations, which applies
no count or lift threshold. -/
theorem correlation_strategy_amended :
    (∀ (draws : List (List ℤ)) (e : StatisticalAnalyzer.SALiftEntry),
      e ∈ StatisticalAnalyzer.calculateLift draws →
      3 ≤ e.count ∧
      (6/5 : ℚ) < ((e.count * draws.length : ℕ) : ℚ) /
        (((StatisticalAnalyzer.freqSA draws e.a) *
          (StatisticalAnalyzer.freqSA draws e.b) : ℕ) : ℚ)) ∧
    (∀ (draws : List Draw) (k : ℕ) (t : StreamTag) (n : ℤ),
      n ∈ Backtester.strategyCorrelation draws k t →
      ∃ pr ∈ AdvancedAnalyzer.analyzeCorrelations draws t,
        n = pr.1.1 ∨ n = pr.1.2) := by
  constructor
  · intro draws e he
    unfold StatisticalAnalyzer.calculateLift at he
    by_cases hlen : draws.length < 10
    · rw [if_pos hlen] at he
      simp at he
    · rw [if_neg hlen] at he
      rw [List.mem_filterMap] at he
      obtain ⟨x, _, hx⟩ := he
      by_cases hc : 3 ≤ x.2 ∧ (6/5 : ℚ) <
          ((x.2 * draws.length : ℕ) : ℚ) /
            (((StatisticalAnalyzer.freqSA draws x.1.1) *
              (StatisticalAnalyzer.freqSA draws x.1.2) : ℕ) : ℚ)
      · rw [if_pos hc] at hx
        rw [← Option.some_inj.mp hx]
        exact hc
      · rw [if_neg hc] at hx
        simp at hx
  · intro draws k t n hn
    unfold Backtester.strategyCorrelation at hn
    have hmem : n ∈ (Backtester.collectFromPairs k
        (AdvancedAnalyzer.analyzeCorrelations draws t) []).take k :=
      ((sortAscBy_perm id _).mem_iff).mp hn
    have hmem2 := List.take_subset k _ hmem
    rcases collectFromPairs_members k _ [] n hmem2 with h | h
    · simp at h
    · exact h

/-- Ten raw draws with a pair that passes the lift filter, used to
evaluate calculateLift on a nonempty passing case. -/
def liftDraws : List (List ℤ) :=
  [[1, 2], [1, 2], [1, 2], [3, 4], [3, 4], [3, 4], [3, 4], [3, 4], [3, 4], [3, 4]]

/-- Witness for C6 amended, discharging both parts at concrete inputs:
the first kept lift entry of ten sample raw draws, and the candidate 1
of the correlation strategy on one draw. -/
theorem correlation_strategy_amended_witness :
    (3 ≤ (⟨1, 2, 3333/1000, 3⟩ : StatisticalAnalyzer.SALiftEntry).count ∧
      (6/5 : ℚ) < (((⟨1, 2, 3333/1000, 3⟩ : StatisticalAnalyzer.SALiftEntry).count *
          liftDraws.length : ℕ) : ℚ) /
        (((StatisticalAnalyzer.freqSA liftDraws 1) *
          (StatisticalAnalyzer.freqSA liftDraws 2) : ℕ) : ℚ)) ∧
    (∃ pr ∈ AdvancedAnalyzer.analyzeCorrelations [drawC6] StreamTag.winning,
      (1 : ℤ) = pr.1.1 ∨ (1 : ℤ) = pr.1.2) := by
  constructor
  · have hlist : StatisticalAnalyzer.calculateLift liftDraws =
        [⟨1, 2, 3333/1000, 3⟩, ⟨3, 4, 1429/1000, 7⟩] := by
      with_unfolding_all rfl
    exact correlation_strategy_amended.1 liftDraws _ (by rw [hlist]; simp)
  · exact correlation_strategy_amended.2 [drawC6] 5 StreamTag.winning 1 (by decide)

theorem fillPass_append (count : ℕ) :
    ∀ cs acc : List (ℤ × ℚ),
    ∃ t, fillPass count cs acc = acc ++ t ∧ t.Sublist cs := by
  intro cs
  induction cs with
  | nil =>
    intro acc
    exact ⟨[], by simp [fillPass], List.nil_sublist _⟩
  | cons c cs ih =>
    intro acc
    unfold fillPass
    by_cases h1 : count ≤ acc.length
    · rw [if_pos h1]
      exact ⟨[], by simp, List.nil_sublist _⟩
    · rw [if_neg h1]
      by_cases h2 : decCount acc (decadeOf c.1) < 2
      · rw [if_pos h2]
        obtain ⟨t, ht, hs⟩ := ih (acc ++ [c])
        exact ⟨c :: t, by rw [ht]; simp, List.Sublist.cons₂ c hs⟩
      · rw [if_neg h2]
        obtain ⟨t, ht, hs⟩ := ih acc
        exact ⟨t, ht, hs.cons c⟩

theorem decCount_append (acc t : List (ℤ × ℚ)) (dec : ℤ) :
    decCount (acc ++ t) dec = decCount acc dec + decCount t dec := by
  unfold decCount
  rw [List.filter_append, List.length_append]

theorem decCount_cons (c : ℤ × ℚ) (cs : List (ℤ × ℚ)) (d : ℤ) :
    decCount (c :: cs) d = (if decadeOf c.1 = d then 1 else 0) + decCount cs d := by
  unfold decCount
  rw [List.filter_cons]
  by_cases h : decadeOf c.1 = d
  · simp [h]
    omega
  · simp [h]

theorem fillPass_decCount (count : ℕ) :
    ∀ cs acc, (∀ dec : ℤ, decCount acc dec ≤ 2) →
    ∀ dec : ℤ, decCount (fillPass count cs acc) dec ≤ 2 := by
  intro cs
  induction cs with
  | nil =>
    intro acc h dec
    simpa [fillPass] using h dec
  | cons c cs ih =>
    intro acc h dec
    unfold fillPass
    by_cases h1 : count ≤ acc.length
    · rw [if_pos h1]
      exact h dec
    · rw [if_neg h1]
      by_cases h2 : decCount acc (decadeOf c.1) < 2
      · rw [if_pos h2]
        refine ih (acc ++ [c]) ?_ dec
        intro d
        rw [decCount_append]
        by_cases hd : decadeOf c.1 = d
        · have hone : decCount [c] d = 1 := by
            rw [decCount_cons, if_pos hd]
            simp [decCount]
          rw [hone]
          rw [hd] at h2
          omega
        · have hzero : decCount [c] d = 0 := by
            rw [decCount_cons, if_neg hd]
            simp [decCount]
          rw [hzero]
          have := h d
          omega
      · rw [if_neg h2]
        exact ih acc h dec

theorem fillPass_length_le (count : ℕ) :
    ∀ cs acc, acc.length ≤ count → (fillPass count cs acc).length ≤ count := by
  intro cs
  induction cs with
  | nil =>
    intro acc h
    simpa [fillPass] using h
  | cons c cs ih =>
    intro acc h
    unfold fillPass
    by_cases h1 : count ≤ acc.length
    · rw [if_pos h1]
      exact h
    · rw [if_neg h1]
      by_cases h2 : decCount acc (decadeOf c.1) < 2
      · rw [if_pos h2]
        refine ih (acc ++ [c]) ?_
        rw [List.length_append]
        simp only [List.length_singleton]
        omega
      · rw [if_neg h2]
        exact ih acc h

theorem fillPass_reject (count : ℕ) :
    ∀ cs acc, (fillPass count cs acc).length < count →
    ∀ c ∈ cs, c ∈ fillPass count cs acc ∨
      2 ≤ decCount (fillPass count cs acc) (decadeOf c.1) := by
  intro cs
  induction cs with
  | nil =>
    intro acc _ c hc
    simp at hc
  | cons c0 cs ih =>
    intro acc h c hc
    unfold fillPass at h ⊢
    by_cases h1 : count ≤ acc.length
    · rw [if_pos h1] at h
      omega
    · rw [if_neg h1] at h ⊢
      by_cases h2 : decCount acc (decadeOf c0.1) < 2
      · rw [if_pos h2] at h ⊢
        rcases List.mem_cons.mp hc with heq | hc2
        · rw [heq]
          left
          obtain ⟨t, ht, _⟩ := fillPass_append count cs (acc ++ [c0])
          rw [ht]
          exact List.mem_append.mpr (Or.inl (by simp))
        · exact ih (acc ++ [c0]) h c hc2
      · rw [if_neg h2] at h ⊢
        rcases List.mem_cons.mp hc with heq | hc2
        · rw [heq]
          right
          obtain ⟨t, ht, _⟩ := fillPass_append count cs acc
          rw [ht, decCount_append]
          have h2ge : 2 ≤ decCount acc (decadeOf c0.1) := not_lt.mp h2
          omega
        · exact ih acc h c hc2

theorem three_decCount_le_length (sel : List (ℤ × ℚ)) (d1 d2 d3 : ℤ)
    (h12 : d1 ≠ d2) (h13 : d1 ≠ d3) (h23 : d2 ≠ d3) :
    decCount sel d1 + decCount sel d2 + decCount sel d3 ≤ sel.length := by
  induction sel with
  | nil => simp [decCount]
  | cons c cs ih =>
    rw [decCount_cons, decCount_cons, decCount_cons, List.length_cons]
    have hone : (if decadeOf c.1 = d1 then 1 else 0) +
        ((if decadeOf c.1 = d2 then 1 else 0) +
          (if decadeOf c.1 = d3 then 1 else 0)) ≤ 1 := by
      by_cases e1 : decadeOf c.1 = d1
      · have ne2 : ¬ decadeOf c.1 = d2 := by rw [e1]; exact h12
        have ne3 : ¬ decadeOf c.1 = d3 := by rw [e1]; exact h13
        simp [e1, ne2, ne3, h12, h13]
      · by_cases e2 : decadeOf c.1 = d2
        · have ne3 : ¬ decadeOf c.1 = d3 := by rw [e2]; exact h23
          simp [e1, e2, ne3, h23, h12.symm]
        · by_cases e3 : decadeOf c.1 = d3
          · simp [e1, e2, e3, h13.symm, h23.symm]
          · simp [e1, e2, e3]
    omega

theorem rankScores_fst_perm (scores : ℤ → ℚ) :
    List.Perm ((rankScores scores).map Prod.fst) nums90 := by
  unfold rankScores
  have hperm := (sortDescBy_perm (fun c : ℤ × ℚ => c.2)
    (nums90.map (fun n => (n, rnd4 (scores n))))).map Prod.fst
  rw [List.map_map] at hperm
  have hfc : (Prod.fst ∘ fun n : ℤ => (n, rnd4 (scores n))) = id := rfl
  rw [hfc, List.map_id] at hperm
  exact hperm

theorem two_le_length_of_mem {α : Type} [DecidableEq α] (a b : α) (l : List α)
    (ha : a ∈ l) (hb : b ∈ l) (hab : a ≠ b) : 2 ≤ l.length := by
  have h1 : ({a, b} : Finset α) ⊆ l.toFinset := by
    intro x hx
    rcases Finset.mem_insert.mp hx with rfl | hx2
    · exact List.mem_toFinset.mpr ha
    · rw [Finset.mem_singleton] at hx2
      subst hx2
      exact List.mem_toFinset.mpr hb
  have h2 : ({a, b} : Finset α).card = 2 := Finset.card_pair hab
  calc 2 = ({a, b} : Finset α).card := h2.symm
    _ ≤ l.toFinset.card := Finset.card_le_card h1
    _ ≤ l.length := l.toFinset_card_le

theorem ranked_has_number (scores : ℤ → ℚ) (n : ℤ) (hn : n ∈ nums90) :
    ∃ c ∈ rankScores scores, c.1 = n := by
  have hmem : n ∈ (rankScores scores).map Prod.fst :=
    (rankScores_fst_perm scores).mem_iff.mpr hn
  rcases List.mem_map.mp hmem with ⟨c, hc, hcf⟩
  exact ⟨c, hc, hcf⟩

theorem decade_pair_bound (scores : ℤ → ℚ)
    (hlt : (fillPass 5 (rankScores scores) []).length < 5)
    (n1 n2 : ℤ) (hne : n1 ≠ n2) (hn1 : n1 ∈ nums90) (hn2 : n2 ∈ nums90)
    (d : ℤ) (hd1 : decadeOf n1 = d) (hd2 : decadeOf n2 = d) :
    2 ≤ decCount (fillPass 5 (rankScores scores) []) d := by
  obtain ⟨c1, hc1m, hc1f⟩ := ranked_has_number scores n1 hn1
  obtain ⟨c2, hc2m, hc2f⟩ := ranked_has_number scores n2 hn2
  rcases fillPass_reject 5 (rankScores scores) [] hlt c1 hc1m with h1 | h1
  · rcases fillPass_reject 5 (rankScores scores) [] hlt c2 hc2m with h2 | h2
    · have hcc : c1 ≠ c2 := fun he => hne (by rw [← hc1f, ← hc2f, he])
      have hm1 : c1 ∈ (fillPass 5 (rankScores scores) []).filter
          (fun c => decadeOf c.1 == d) :=
        List.mem_filter.mpr ⟨h1, by simp [hc1f, hd1]⟩
      have hm2 : c2 ∈ (fillPass 5 (rankScores scores) []).filter
          (fun c => decadeOf c.1 == d) :=
        List.mem_filter.mpr ⟨h2, by simp [hc2f, hd2]⟩
      exact two_le_length_of_mem c1 c2 _ hm1 hm2 hcc
    · rw [hc2f, hd2] at h2
      exact h2
  · rw [hc1f, hd1] at h1
    exact h1

theorem fillPass_ranked_length (scores : ℤ → ℚ) :
    (fillPass 5 (rankScores scores) []).length = 5 := by
  have hle : (fillPass 5 (rankScores scores) []).length ≤ 5 :=
    fillPass_length_le 5 (rankScores scores) [] (by simp)
  by_contra hne
  have hlt : (fillPass 5 (rankScores scores) []).length < 5 :=
    lt_of_le_of_ne hle hne
  have h0 := decade_pair_bound scores hlt 1 2 (by norm_num)
    (by decide) (by decide) 0 (by decide) (by decide)
  have h1 := decade_pair_bound scores hlt 11 12 (by norm_num)
    (by decide) (by decide) 1 (by decide) (by decide)
  have h2 := decade_pair_bound scores hlt 21 22 (by norm_num)
    (by decide) (by decide) 2 (by decide) (by decide)
  have hb := three_decCount_le_length (fillPass 5 (rankScores scores) [])
    0 1 2 (by norm_num) (by norm_num) (by norm_num)
  omega

theorem secondPass_of_full (count : ℕ) (l acc : List (ℤ × ℚ))
    (h : count ≤ acc.length) : secondPass count l acc = acc := by
  cases l with
  | nil => rfl
  | cons c cs =>
    unfold secondPass
    rw [if_pos h]

theorem selectTopNumbers_eq_fill (scores : ℤ → ℚ) :
    CorrelationAnalyzer.selectTopNumbers scores 5 =
      fillPass 5 (rankScores scores) [] := by
  unfold CorrelationAnalyzer.selectTopNumbers
  exact secondPass_of_full 5 _ _ (by rw [fillPass_ranked_length])

theorem fillPass_ranked_sublist (scores : ℤ → ℚ) :
    (fillPass 5 (rankScores scores) []).Sublist (rankScores scores) := by
  obtain ⟨t, ht, hs⟩ := fillPass_append 5 (rankScores scores) []
  rw [List.nil_append] at ht
  rw [ht]
  exact hs

theorem fillPass_ranked_fst_nodup (scores : ℤ → ℚ) :
    ((fillPass 5 (rankScores scores) []).map Prod.fst).Nodup :=
  List.Nodup.sublist ((fillPass_ranked_sublist scores).map Prod.fst)
    ((rankScores_fst_perm scores).nodup_iff.mpr nums90_nodup)

theorem fillPass_ranked_range (scores : ℤ → ℚ) (c : ℤ × ℚ)
    (hc : c ∈ fillPass 5 (rankScores scores) []) : 1 ≤ c.1 ∧ c.1 ≤ 90 := by
  have h1 : c ∈ rankScores scores := (fillPass_ranked_sublist scores).subset hc
  have h2 : c.1 ∈ (rankScores scores).map Prod.fst := List.mem_map_of_mem _ h1
  exact (mem_nums90 c.1).mp ((rankScores_fst_perm scores).mem_iff.mp h2)

/-- C4: both selectors, the hybrid selectTopNumbers and the inline
selection of generatePredictions, return exactly 5 distinct numbers in
1..90 from a score map over 1..90, with at most 2 selected numbers in
any decade; since the cap holds unconditionally here, it holds in
particular whenever at least five decades carry non-zero scores. -/
theorem selector_decade_balance (scores : ℤ → ℚ) :
    ((CorrelationAnalyzer.selectTopNumbers scores 5).length = 5 ∧
     ((CorrelationAnalyzer.selectTopNumbers scores 5).map Prod.fst).Nodup ∧
     (∀ c ∈ CorrelationAnalyzer.selectTopNumbers scores 5, 1 ≤ c.1 ∧ c.1 ≤ 90) ∧
     (∀ dec : ℤ, decCount (CorrelationAnalyzer.selectTopNumbers scores 5) dec ≤ 2)) ∧
    ((Server.serverSelectNumbers scores).length = 5 ∧
     (Server.serverSelectNumbers scores).Nodup ∧
     (∀ n ∈ Server.serverSelectNumbers scores, 1 ≤ n ∧ n ≤ 90) ∧
     (∀ dec : ℤ, ((Server.serverSelectNumbers scores).filter
        (fun n => decadeOf n == dec)).length ≤ 2)) := by
  have hsel := selectTopNumbers_eq_fill scores
  have hserver : Server.serverSelectNumbers scores =
      sortAscBy id ((fillPass 5 (rankScores scores) []).map Prod.fst) := by
    show sortAscBy id ((secondPass 5 (rankScores scores)
      (fillPass 5 (rankScores scores) [])).map Prod.fst) = _
    rw [secondPass_of_full 5 _ _ (by rw [fillPass_ranked_length])]
  have hperm : List.Perm (Server.serverSelectNumbers scores)
      ((fillPass 5 (rankScores scores) []).map Prod.fst) := by
    rw [hserver]
    exact sortAscBy_perm id _
  refine ⟨⟨?_, ?_, ?_, ?_⟩, ?_, ?_, ?_, ?_⟩
  · rw [hsel]
    exact fillPass_ranked_length scores
  · rw [hsel]
    exact fillPass_ranked_fst_nodup scores
  · rw [hsel]
    exact fillPass_ranked_range scores
  · intro dec
    rw [hsel]
    exact fillPass_decCount 5 (rankScores scores) [] (by simp [decCount]) dec
  · rw [hperm.length_eq, List.length_map]
    exact fillPass_ranked_length scores
  · exact hperm.nodup_iff.mpr (fillPass_ranked_fst_nodup scores)
  · intro n hn
    have h2 := hperm.mem_iff.mp hn
    rcases List.mem_map.mp h2 with ⟨c, hc, hcf⟩
    rw [← hcf]
    exact fillPass_ranked_range scores c hc
  · intro dec
    have hcp : ((Server.serverSelectNumbers scores).filter
        (fun n => decadeOf n == dec)).length =
        ((((fillPass 5 (rankScores scores) []).map Prod.fst)).filter
          (fun n => decadeOf n == dec)).length := by
      rw [← List.countP_eq_length_filter, ← List.countP_eq_length_filter]
      exact hperm.countP_eq _
    rw [hcp, List.filter_map, List.length_map]
    have hfd : decCount (fillPass 5 (rankScores scores) []) dec ≤ 2 :=
      fillPass_decCount 5 (rankScores scores) [] (by simp [decCount]) dec
    unfold decCount at hfd
    have hpred : ((fun n => decadeOf n == dec) ∘ (Prod.fst : ℤ × ℚ → ℤ)) =
        (fun c : ℤ × ℚ => decadeOf c.1 == dec) := rfl
    rw [hpred]
    exact hfd

/-- Witness for C4: on the constant score map the hybrid selector picks
the pair 1, 2 from decade 0 first, and its first selected candidate
lies in 1..90. -/
theorem selector_decade_balance_witness :
    1 ≤ ((1 : ℤ), (1 : ℚ)).1 ∧ ((1 : ℤ), (1 : ℚ)).1 ≤ 90 := by
  have hlist : CorrelationAnalyzer.selectTopNumbers (fun _ => 1) 5 =
      [(1, 1), (2, 1), (11, 1), (12, 1), (21, 1)] := by
    with_unfolding_all rfl
  exact (selector_decade_balance (fun _ => 1)).1.2.2.1 (1, 1)
    (by rw [hlist]; simp)

theorem clampW_mem (x : ℚ) : 1/20 ≤ Brain.clampW x ∧ Brain.clampW x ≤ 3/5 := by
  unfold Brain.clampW
  exact ⟨le_max_left _ _, max_le (by norm_num) (min_le_left _ _)⟩

theorem updateW_mem (x s : ℚ) :
    1/20 ≤ Brain.updateW x s ∧ Brain.updateW x s ≤ 3/5 :=
  clampW_mem _

theorem rnd2_bounds (x : ℚ) (h1 : 1/85 ≤ x) (h2 : x ≤ 12/19) :
    1/100 ≤ rnd2 x ∧ rnd2 x ≤ 63/100 ∧ |rnd2 x - x| ≤ 1/200 := by
  unfold rnd2
  have hr1 : (1 : ℤ) ≤ round (x * 100) := by
    rw [round_eq, Int.le_floor]
    push_cast
    linarith
  have hr2 : round (x * 100) ≤ 63 := by
    rw [round_eq]
    have hlt : ⌊x * 100 + 1 / 2⌋ < 64 := by
      rw [Int.floor_lt]
      push_cast
      linarith
    omega
  have hq1 : ((1 : ℤ) : ℚ) ≤ (round (x * 100) : ℚ) := by exact_mod_cast hr1
  have hq2 : ((round (x * 100) : ℤ) : ℚ) ≤ 63 := by exact_mod_cast hr2
  refine ⟨by push_cast at hq1; linarith, by linarith, ?_⟩
  have habs := abs_sub_round (x * 100)
  have habs2 : |((round (x * 100) : ℤ) : ℚ) - x * 100| ≤ 1 / 2 := by
    rw [abs_sub_comm]
    exact habs
  have hrw : ((round (x * 100) : ℤ) : ℚ) / 100 - x =
      (((round (x * 100) : ℤ) : ℚ) - x * 100) / 100 := by
    ring
  rw [hrw, abs_div, abs_of_pos (by norm_num : (0 : ℚ) < 100)]
  linarith

theorem ratio_rnd_bounds (f S : ℚ) (hf1 : 1/20 ≤ f) (hf2 : f ≤ 3/5)
    (hS1 : f + 7/20 ≤ S) (hS2 : S ≤ f + 21/5) :
    1/100 ≤ rnd2 (f / S) ∧ rnd2 (f / S) ≤ 63/100 ∧
      |rnd2 (f / S) - f / S| ≤ 1/200 := by
  have hS0 : 0 < S := by linarith
  have hx1 : 1/85 ≤ f / S := by
    rw [le_div_iff₀ hS0]
    linarith
  have hx2 : f / S ≤ 12/19 := by
    rw [div_le_iff₀ hS0]
    linarith
  exact rnd2_bounds _ hx1 hx2

theorem normalizeW_bounds (u : Brain.Weights)
    (h1 : 1/20 ≤ u.hot ∧ u.hot ≤ 3/5)
    (h2 : 1/20 ≤ u.due ∧ u.due ≤ 3/5)
    (h3 : 1/20 ≤ u.correlation ∧ u.correlation ≤ 3/5)
    (h4 : 1/20 ≤ u.position ∧ u.position ≤ 3/5)
    (h5 : 1/20 ≤ u.balanced ∧ u.balanced ≤ 3/5)
    (h6 : 1/20 ≤ u.statistical ∧ u.statistical ≤ 3/5)
    (h7 : 1/20 ≤ u.finales ∧ u.finales ≤ 3/5)
    (h8 : 1/20 ≤ u.lstm ∧ u.lstm ≤ 3/5) :
    ((1/100 ≤ (Brain.normalizeW u).hot ∧ (Brain.normalizeW u).hot ≤ 63/100) ∧
     (1/100 ≤ (Brain.normalizeW u).due ∧ (Brain.normalizeW u).due ≤ 63/100) ∧
     (1/100 ≤ (Brain.normalizeW u).correlation ∧
       (Brain.normalizeW u).correlation ≤ 63/100) ∧
     (1/100 ≤ (Brain.normalizeW u).position ∧
       (Brain.normalizeW u).position ≤ 63/100) ∧
     (1/100 ≤ (Brain.normalizeW u).balanced ∧
       (Brain.normalizeW u).balanced ≤ 63/100) ∧
     (1/100 ≤ (Brain.normalizeW u).statistical ∧
       (Brain.normalizeW u).statistical ≤ 63/100) ∧
     (1/100 ≤ (Brain.normalizeW u).finales ∧
       (Brain.normalizeW u).finales ≤ 63/100) ∧
     (1/100 ≤ (Brain.normalizeW u).lstm ∧ (Brain.normalizeW u).lstm ≤ 63/100)) ∧
    |Brain.sumW (Brain.normalizeW u) - 1| ≤ 1/25 := by
  have hSdef : Brain.sumW u = u.hot + u.due + u.correlation + u.position +
      u.balanced + u.statistical + u.finales + u.lstm := rfl
  have hb1 := ratio_rnd_bounds u.hot (Brain.sumW u) h1.1 h1.2
    (by rw [hSdef]; linarith [h2.1, h3.1, h4.1, h5.1, h6.1, h7.1, h8.1])
    (by rw [hSdef]; linarith [h2.2, h3.2, h4.2, h5.2, h6.2, h7.2, h8.2])
  have hb2 := ratio_rnd_bounds u.due (Brain.sumW u) h2.1 h2.2
    (by rw [hSdef]; linarith [h1.1, h3.1, h4.1, h5.1, h6.1, h7.1, h8.1])
    (by rw [hSdef]; linarith [h1.2, h3.2, h4.2, h5.2, h6.2, h7.2, h8.2])
  have hb3 := ratio_rnd_bounds u.correlation (Brain.sumW u) h3.1 h3.2
    (by rw [hSdef]; linarith [h1.1, h2.1, h4.1, h5.1, h6.1, h7.1, h8.1])
    (by rw [hSdef]; linarith [h1.2, h2.2, h4.2, h5.2, h6.2, h7.2, h8.2])
  have hb4 := ratio_rnd_bounds u.position (Brain.sumW u) h4.1 h4.2
    (by rw [hSdef]; linarith [h1.1, h2.1, h3.1, h5.1, h6.1, h7.1, h8.1])
    (by rw [hSdef]; linarith [h1.2, h2.2, h3.2, h5.2, h6.2, h7.2, h8.2])
  have hb5 := ratio_rnd_bounds u.balanced (Brain.sumW u) h5.1 h5.2
    (by rw [hSdef]; linarith [h1.1, h2.1, h3.1, h4.1, h6.1, h7.1, h8.1])
    (by rw [hSdef]; linarith [h1.2, h2.2, h3.2, h4.2, h6.2, h7.2, h8.2])
  have hb6 := ratio_rnd_bounds u.statistical (Brain.sumW u) h6.1 h6.2
    (by rw [hSdef]; linarith [h1.1, h2.1, h3.1, h4.1, h5.1, h7.1, h8.1])
    (by rw [hSdef]; linarith [h1.2, h2.2, h3.2, h4.2, h5.2, h7.2, h8.2])
  have hb7 := ratio_rnd_bounds u.finales (Brain.sumW u) h7.1 h7.2
    (by rw [hSdef]; linarith [h1.1, h2.1, h3.1, h4.1, h5.1, h6.1, h8.1])
    (by rw [hSdef]; linarith [h1.2, h2.2, h3.2, h4.2, h5.2, h6.2, h8.2])
  have hb8 := ratio_rnd_bounds u.lstm (Brain.sumW u) h8.1 h8.2
    (by rw [hSdef]; linarith [h1.1, h2.1, h3.1, h4.1, h5.1, h6.1, h7.1])
    (by rw [hSdef]; linarith [h1.2, h2.2, h3.2, h4.2, h5.2, h6.2, h7.2])
  have hW0 : 0 < Brain.sumW u := by
    rw [hSdef]
    linarith [h1.1, h2.1, h3.1, h4.1, h5.1, h6.1, h7.1, h8.1]
  have hsum1 : u.hot / Brain.sumW u + u.due / Brain.sumW u +
      u.correlation / Brain.sumW u + u.position / Brain.sumW u +
      u.balanced / Brain.sumW u + u.statistical / Brain.sumW u +
      u.finales / Brain.sumW u + u.lstm / Brain.sumW u = 1 := by
    rw [div_add_div_same, div_add_div_same, div_add_div_same, div_add_div_same,
      div_add_div_same, div_add_div_same, div_add_div_same, ← hSdef]
    exact div_self (ne_of_gt hW0)
  have hacc : Brain.sumW (Brain.normalizeW u) =
      rnd2 (u.hot / Brain.sumW u) + rnd2 (u.due / Brain.sumW u) +
      rnd2 (u.correlation / Brain.sumW u) + rnd2 (u.position / Brain.sumW u) +
      rnd2 (u.balanced / Brain.sumW u) + rnd2 (u.statistical / Brain.sumW u) +
      rnd2 (u.finales / Brain.sumW u) + rnd2 (u.lstm / Brain.sumW u) := rfl
  refine ⟨⟨⟨hb1.1, hb1.2.1⟩, ⟨hb2.1, hb2.2.1⟩, ⟨hb3.1, hb3.2.1⟩,
    ⟨hb4.1, hb4.2.1⟩, ⟨hb5.1, hb5.2.1⟩, ⟨hb6.1, hb6.2.1⟩,
    ⟨hb7.1, hb7.2.1⟩, ⟨hb8.1, hb8.2.1⟩⟩, ?_⟩
  have e1 := abs_le.mp hb1.2.2
  have e2 := abs_le.mp hb2.2.2
  have e3 := abs_le.mp hb3.2.2
  have e4 := abs_le.mp hb4.2.2
  have e5 := abs_le.mp hb5.2.2
  have e6 := abs_le.mp hb6.2.2
  have e7 := abs_le.mp hb7.2.2
  have e8 := abs_le.mp hb8.2.2
  rw [hacc, abs_le]
  constructor
  · linarith [e1.1, e2.1, e3.1, e4.1, e5.1, e6.1, e7.1, e8.1]
  · linarith [e1.2, e2.2, e3.2, e4.2, e5.2, e6.2, e7.2, e8.2]

set_option maxHeartbeats 2000000 in
/-- C1 amended: after every Learn step whose prior lstm weight lies in
the clamp interval, every tuned weight is clamped to the interval 0.05
to 0.60 immediately before normalization, but the final normalization
divides by the sum and rounds every weight to two decimals, so the
stored weights are only guaranteed to lie in the interval 0.01 to 0.63
and to sum to 1 within 0.04, not within 0.000001 and not within 0.05 to
0.60 (the default-key injection on load applies the same rounding
normalization and loses the same bounds). -/
theorem learn_weight_invariant_amended (w : Brain.Weights)
    (hl1 : 1/20 ≤ w.lstm) (hl2 : w.lstm ≤ 3/5)
    (a : List ℤ) (ds : List Draw) (t : StreamTag) :
    ((1/100 ≤ (Brain.learn w a ds t).hot ∧ (Brain.learn w a ds t).hot ≤ 63/100) ∧
     (1/100 ≤ (Brain.learn w a ds t).due ∧ (Brain.learn w a ds t).due ≤ 63/100) ∧
     (1/100 ≤ (Brain.learn w a ds t).correlation ∧
       (Brain.learn w a ds t).correlation ≤ 63/100) ∧
     (1/100 ≤ (Brain.learn w a ds t).position ∧
       (Brain.learn w a ds t).position ≤ 63/100) ∧
     (1/100 ≤ (Brain.learn w a ds t).balanced ∧
       (Brain.learn w a ds t).balanced ≤ 63/100) ∧
     (1/100 ≤ (Brain.learn w a ds t).statistical ∧
       (Brain.learn w a ds t).statistical ≤ 63/100) ∧
     (1/100 ≤ (Brain.learn w a ds t).finales ∧
       (Brain.learn w a ds t).finales ≤ 63/100) ∧
     (1/100 ≤ (Brain.learn w a ds t).lstm ∧ (Brain.learn w a ds t).lstm ≤ 63/100)) ∧
    |Brain.sumW (Brain.learn w a ds t) - 1| ≤ 1/25 := by
  have heq : Brain.learn w a ds t = Brain.normalizeW
      { hot := Brain.updateW w.hot (Brain.stratScoreOf
          (Backtester.strategyHot (Brain.trainingDataOf a ds t) 10 t) a)
        due := Brain.updateW w.due (Brain.stratScoreOf
          (Backtester.strategyDue (Brain.trainingDataOf a ds t) 10 t) a)
        correlation := Brain.updateW w.correlation (Brain.stratScoreOf
          (Backtester.strategyCorrelation (Brain.trainingDataOf a ds t) 10 t) a)
        position := Brain.updateW w.position (Brain.stratScoreOf
          (Backtester.strategyPosition (Brain.trainingDataOf a ds t) t) a)
        balanced := Brain.updateW w.balanced (Brain.stratScoreOf
          (Backtester.strategyBalanced (Brain.trainingDataOf a ds t) 10 t) a)
        statistical := Brain.updateW w.statistical (Brain.stratScoreOf
          (Backtester.strategyStatistical (Brain.trainingDataOf a ds t) 10 t) a)
        finales := Brain.updateW w.finales (Brain.stratScoreOf
          (Backtester.strategyFinales (Brain.trainingDataOf a ds t) 10 t) a)
        lstm := w.lstm } := rfl
  rw [heq]
  exact normalizeW_bounds _ (updateW_mem _ _) (updateW_mem _ _) (updateW_mem _ _)
    (updateW_mem _ _) (updateW_mem _ _) (updateW_mem _ _) (updateW_mem _ _)
    ⟨hl1, hl2⟩

/-- Witness for C1 amended at the default weights and empty draw
history. -/
theorem learn_weight_invariant_amended_witness :
    ((1/100 ≤ (Brain.learn Brain.defaultWeights [45, 47, 55, 57, 65] []
        StreamTag.winning).hot ∧
      (Brain.learn Brain.defaultWeights [45, 47, 55, 57, 65] []
        StreamTag.winning).hot ≤ 63/100) ∧
     (1/100 ≤ (Brain.learn Brain.defaultWeights [45, 47, 55, 57, 65] []
        StreamTag.winning).due ∧
      (Brain.learn Brain.defaultWeights [45, 47, 55, 57, 65] []
        StreamTag.winning).due ≤ 63/100) ∧
     (1/100 ≤ (Brain.learn Brain.defaultWeights [45, 47, 55, 57, 65] []
        StreamTag.winning).correlation ∧
      (Brain.learn Brain.defaultWeights [45, 47, 55, 57, 65] []
        StreamTag.winning).correlation ≤ 63/100) ∧
     (1/100 ≤ (Brain.learn Brain.defaultWeights [45, 47, 55, 57, 65] []
        StreamTag.winning).position ∧
      (Brain.learn Brain.defaultWeights [45, 47, 55, 57, 65] []
        StreamTag.winning).position ≤ 63/100) ∧
     (1/100 ≤ (Brain.learn Brain.defaultWeights [45, 47, 55, 57, 65] []
        StreamTag.winning).balanced ∧
      (Brain.learn Brain.defaultWeights [45, 47, 55, 57, 65] []
        StreamTag.winning).balanced ≤ 63/100) ∧
     (1/100 ≤ (Brain.learn Brain.defaultWeights [45, 47, 55, 57, 65] []
        StreamTag.winning).statistical ∧
      (Brain.learn Brain.defaultWeights [45, 47, 55, 57, 65] []
        StreamTag.winning).statistical ≤ 63/100) ∧
     (1/100 ≤ (Brain.learn Brain.defaultWeights [45, 47, 55, 57, 65] []
        StreamTag.winning).finales ∧
      (Brain.learn Brain.defaultWeights [45, 47, 55, 57, 65] []
        StreamTag.winning).finales ≤ 63/100) ∧
     (1/100 ≤ (Brain.learn Brain.defaultWeights [45, 47, 55, 57, 65] []
        StreamTag.winning).lstm ∧
      (Brain.learn Brain.defaultWeights [45, 47, 55, 57, 65] []
        StreamTag.winning).lstm ≤ 63/100)) ∧
    |Brain.sumW (Brain.learn Brain.defaultWeights [45, 47, 55, 57, 65] []
      StreamTag.winning) - 1| ≤ 1/25 :=
  learn_weight_invariant_amended Brain.defaultWeights (by norm_num [Brain.defaultWeights])
    (by norm_num [Brain.defaultWeights]) [45, 47, 55, 57, 65] [] StreamTag.winning

set_option maxRecDepth 1000000 in
set_option maxHeartbeats 4000000 in
/-- C1 counterexample: one Learn step from the default weights on an
empty draw set (every strategy scores 0, every tuned weight shrinks by
LR/2, then rounding normalization) yields weights summing to 1.01, so
the claimed sum of 1 within 0.000001 is false. -/
theorem learn_weight_invariant_counterexample :
    Brain.sumW (Brain.learn Brain.defaultWeights [45, 47, 55, 57, 65] []
      StreamTag.winning) = 101/100 ∧
    ¬ |(101/100 : ℚ) - 1| ≤ 1/1000000 := by
  constructor
  · with_unfolding_all rfl
  · rw [show (101/100 : ℚ) - 1 = 1/100 by norm_num,
      abs_of_nonneg (by norm_num : (0 : ℚ) ≤ 1/100)]
    norm_num

theorem neighborFold_changes (cands : List ℤ) :
    ∀ (sc : ℤ → ℚ) (n : ℤ),
    (cands.foldl (fun sc num =>
      let bonus := sc num * (3 / 20)
      let sc1 := if 1 < num then addAt sc (num - 1) bonus else sc
      if num < 90 then addAt sc1 (num + 1) bonus else sc1) sc) n ≠ sc n →
    ∃ m ∈ cands, (n = m - 1 ∧ 1 < m) ∨ (n = m + 1 ∧ m < 90) := by
  induction cands with
  | nil =>
    intro sc n h
    simp at h
  | cons m rest ih =>
    intro sc n h
    rw [List.foldl_cons] at h
    by_cases hstep :
        ((fun sc num =>
          let bonus := sc num * (3 / 20)
          let sc1 := if 1 < num then addAt sc (num - 1) bonus else sc
          if num < 90 then addAt sc1 (num + 1) bonus else sc1) sc m) n = sc n
    · have h3 : (rest.foldl (fun sc num =>
          let bonus := sc num * (3 / 20)
          let sc1 := if 1 < num then addAt sc (num - 1) bonus else sc
          if num < 90 then addAt sc1 (num + 1) bonus else sc1)
            ((fun sc num =>
              let bonus := sc num * (3 / 20)
              let sc1 := if 1 < num then addAt sc (num - 1) bonus else sc
              if num < 90 then addAt sc1 (num + 1) bonus else sc1) sc m)) n ≠
          ((fun sc num =>
            let bonus := sc num * (3 / 20)
            let sc1 := if 1 < num then addAt sc (num - 1) bonus else sc
            if num < 90 then addAt sc1 (num + 1) bonus else sc1) sc m) n :=
        fun heq => h (heq.trans hstep)
      obtain ⟨m2, hm2, hc⟩ := ih _ n h3
      exact ⟨m2, List.mem_cons_of_mem m hm2, hc⟩
    · refine ⟨m, by simp, ?_⟩
      by_contra hno
      push_neg at hno
      apply hstep
      show (if m < 90 then
          addAt (if 1 < m then addAt sc (m - 1) (sc m * (3 / 20)) else sc) (m + 1)
            (sc m * (3 / 20))
        else if 1 < m then addAt sc (m - 1) (sc m * (3 / 20)) else sc) n = sc n
      have h1 : (if 1 < m then addAt sc (m - 1) (sc m * (3 / 20)) else sc) n = sc n := by
        by_cases hm1 : 1 < m
        · rw [if_pos hm1]
          have hne : n ≠ m - 1 := fun hn => absurd hm1 (not_lt.mpr (hno.1 hn))
          simp [addAt, hne]
        · rw [if_neg hm1]
      by_cases hm90 : m < 90
      · rw [if_pos hm90]
        have hne : n ≠ m + 1 := fun hn => absurd hm90 (not_lt.mpr (hno.2 hn))
        simp only [addAt, hne, if_false, ite_false, if_neg]
        exact h1
      · rw [if_neg hm90]
        exact h1

theorem topCandidates_subset_nums90 (scores : ℤ → ℚ) (m : ℤ)
    (hm : m ∈ Brain.topCandidates scores) : m ∈ nums90 := by
  unfold Brain.topCandidates at hm
  have h1 := List.take_subset 15 _ hm
  have h2 := (sortDescBy_perm (fun n => scores n)
    (nums90.filter (fun n => decide (0 < scores n)))).mem_iff.mp h1
  exact List.mem_of_mem_filter h2

/-- C9: the tactical neighbor redistribution modifies the score map
only at in-range neighbor positions of the top-15 positive-score
candidates, each changed key being m minus 1 or m plus 1 for some
candidate m and lying in 1..90, and it never creates or modifies an
entry for a number outside 1..90. -/
theorem neighbor_redistribution_safety (scores : ℤ → ℚ) :
    (∀ n : ℤ, Brain.applyNeighborRedistribution scores n ≠ scores n →
      ∃ m ∈ Brain.topCandidates scores,
        (n = m - 1 ∨ n = m + 1) ∧ 1 ≤ n ∧ n ≤ 90) ∧
    (∀ n : ℤ, n < 1 ∨ 90 < n →
      Brain.applyNeighborRedistribution scores n = scores n) := by
  have hmain : ∀ n : ℤ, Brain.applyNeighborRedistribution scores n ≠ scores n →
      ∃ m ∈ Brain.topCandidates scores,
        (n = m - 1 ∨ n = m + 1) ∧ 1 ≤ n ∧ n ≤ 90 := by
    intro n h
    obtain ⟨m, hm, hc⟩ := neighborFold_changes (Brain.topCandidates scores) scores n h
    have hrange := (mem_nums90 m).mp (topCandidates_subset_nums90 scores m hm)
    rcases hc with ⟨rfl, h1⟩ | ⟨rfl, h90⟩
    · exact ⟨m, hm, Or.inl rfl, by omega, by omega⟩
    · exact ⟨m, hm, Or.inr rfl, by omega, by omega⟩
  refine ⟨hmain, ?_⟩
  intro n hout
  by_contra hne
  obtain ⟨m, _, _, hn1, hn90⟩ := hmain n hne
  omega

/-- Witness for C9: the redistribution leaves the out-of-range key 0
untouched. -/
theorem neighbor_redistribution_safety_witness :
    Brain.applyNeighborRedistribution scoresC2 0 = scoresC2 0 :=
  (neighbor_redistribution_safety scoresC2).2 0 (Or.inl (by norm_num))

theorem find_first_max_of_sorted (p : Server.PredEntry) :
    ∀ ds : List Draw, ds.Pairwise (fun a b => b.drawDateDay ≤ a.drawDateDay) →
    ∀ d, ds.find? (fun x => Server.matchCond p x) = some d →
    d ∈ ds ∧ Server.matchCond p d = true ∧
      ∀ e ∈ ds, Server.matchCond p e = true → e.drawDateDay ≤ d.drawDateDay := by
  intro ds
  induction ds with
  | nil =>
    intro _ d hd
    simp at hd
  | cons x rest ih =>
    intro hp d hd
    rw [List.pairwise_cons] at hp
    cases hx : Server.matchCond p x with
    | true =>
      rw [List.find?_cons_of_pos _ hx] at hd
      have hdx : d = x := (Option.some_inj.mp hd).symm
      subst hdx
      refine ⟨by simp, hx, ?_⟩
      intro e he _
      rcases List.mem_cons.mp he with rfl | he2
      · exact le_refl _
      · exact hp.1 e he2
    | false =>
      rw [List.find?_cons_of_neg _ (by simp [hx])] at hd
      obtain ⟨hmem, hmc, hmax⟩ := ih hp.2 d hd
      refine ⟨List.mem_cons_of_mem x hmem, hmc, ?_⟩
      intro e he hme
      rcases List.mem_cons.mp he with rfl | he2
      · rw [hx] at hme
        exact absurd hme (by simp)
      · exact hmax e he2 hme

/-- C3 amended: for an unverified entry, the verification loop
attributes the first draw of the fetched list whose drawTypeId matches
and whose date is at or after the prediction timestamp or on the same
UTC day; since that list is ordered newest first, the attributed draw
is a latest matching draw, not the earliest, and a result is recorded
exactly when that draw lies in the window from minus 24 to plus 72
hours around the prediction. -/
theorem verify_attribution_amended (ds : List Draw) (p : Server.PredEntry)
    (hsorted : ds.Pairwise (fun a b => b.drawDateDay ≤ a.drawDateDay))
    (r : Server.VerifResult) (h : Server.verifyEntry ds p = some r) :
    ∃ d ∈ ds, Server.matchCond p d = true ∧ Server.windowOK p d = true ∧
      r = Server.mkResult p d ∧
      ∀ e ∈ ds, Server.matchCond p e = true → e.drawDateDay ≤ d.drawDateDay := by
  unfold Server.verifyEntry at h
  cases hf : ds.find? (fun d => Server.matchCond p d) with
  | none =>
    rw [hf] at h
    simp at h
  | some d =>
    rw [hf] at h
    dsimp only at h
    by_cases hw : Server.windowOK p d = true
    · rw [if_pos hw] at h
      obtain ⟨hmem, hmc, hmax⟩ := find_first_max_of_sorted p ds hsorted d hf
      exact ⟨d, hmem, hmc, hw, (Option.some_inj.mp h).symm, hmax⟩
    · rw [if_neg hw] at h
      simp at h

/-- Witness for C3 amended: with two matching draws on days 12 and 11
fetched newest first, the day-12 draw is attributed, is maximal, and
its 48-hour distance passes the window test. -/
theorem verify_attribution_amended_witness :
    ∃ d ∈ [drawA, drawB], Server.matchCond predC3 d = true ∧
      Server.windowOK predC3 d = true ∧
      (⟨12, [some 5, some 6, some 7, some 8, some 9], 1, [5], []⟩ :
        Server.VerifResult) = Server.mkResult predC3 d ∧
      ∀ e ∈ [drawA, drawB], Server.matchCond predC3 e = true →
        e.drawDateDay ≤ d.drawDateDay :=
  verify_attribution_amended [drawA, drawB] predC3 (by decide) _ (by decide)

/-- C3 counterexample: both draws match the entry and lie in the
last-7-days slice, the earliest in date order is the day-11 draw, but
the loop attributes the day-12 draw found first in the newest-first
list, so the claimed earliest-draw attribution is false. -/
theorem verify_attribution_counterexample :
    (Server.verifyEntry [drawA, drawB] predC3).map (fun r => r.drawDate) =
      some 12 ∧
    Server.specEarliestMatchingDate [drawA, drawB] predC3 = some 11 ∧
    (12 : ℤ) ≠ 11 :=
  ⟨by decide, by decide, by decide⟩

/-- C6 counterexample: on a single draw no pair reaches count 3 and the
filtered lift table is empty, yet the correlation strategy still emits
the five candidates 1..5 drawn from the unfiltered top pairs, whose
counts are all 1. -/
theorem correlation_strategy_counterexample :
    Backtester.strategyCorrelation [drawC6] 5 StreamTag.winning = [1, 2, 3, 4, 5] ∧
    StatisticalAnalyzer.calculateLift
      ([drawC6].map (fun d => extractNumbers d StreamTag.winning)) = [] ∧
    (AdvancedAnalyzer.analyzeCorrelations [drawC6] StreamTag.winning).all
      (fun pr => pr.2 == 1) = true := by
  refine ⟨by decide, by decide, by decide⟩

end LottoBrain
